import Mathlib

/-!
Verification of the kiln autonomous-agent navigation and control core.

This file gives a shallow embedding, in Lean 4, of the algorithmic core of
the kiln repository: the occupancy grid and A* planner
(src/kiln/actors/pathfinding.py), the car actuator and collision tracker
(src/kiln/actors/car.py), and the NPC steering policy
(src/kiln/actors/npc.py).  Python floats are embedded as rationals;
transcendental operations (sin, cos, atan2, hypot, pi) that the policy
consumes from the math library are abstracted as an explicit oracle
structure, so that every claim quantifies over all possible values those
operations could return.  Fallible constructors return Except.
-/

namespace Kiln

/-- Grid cell index pair, source type alias Cell = tuple[int, int]. -/
abbrev Cell := ℤ × ℤ

/-- Axis-aligned bounding box in world XY, from pathfinding.AABB. -/
structure AABB where
  xmin : ℚ
  ymin : ℚ
  xmax : ℚ
  ymax : ℚ
deriving DecidableEq, Repr

/-- AABB.inflated from the source: grow the box by r on all four sides. -/
def AABB.inflated (b : AABB) (r : ℚ) : AABB :=
  ⟨b.xmin - r, b.ymin - r, b.xmax + r, b.ymax + r⟩

/-- AABB.contains_xy from the source. -/
def AABB.contains_xy (b : AABB) (x y : ℚ) : Bool :=
  decide ((b.xmin ≤ x ∧ x ≤ b.xmax) ∧ (b.ymin ≤ y ∧ y ≤ b.ymax))

/-- Separating-axis intersection test, pathfinding._aabb_intersects. -/
def aabbIntersects (ax0 ay0 ax1 ay1 : ℚ) (b : AABB) : Bool :=
  if ax1 < b.xmin ∨ ax0 > b.xmax then false
  else if ay1 < b.ymin ∨ ay0 > b.ymax then false
  else true

/-- Occupancy grid, pathfinding.NavGrid: fixed-size square cells,
blocked table indexed [iy][ix]. -/
structure NavGrid where
  xyMin : ℚ × ℚ
  xyMax : ℚ × ℚ
  cellSize : ℚ
  width : ℕ
  height : ℕ
  blocked : List (List Bool)
deriving DecidableEq, Repr

/-- NavGrid.build from the source: validates bounds and cell size, then
rasterizes the inflated obstacle AABBs onto the cell grid.  A Python
ValueError is embedded as Except.error. -/
def NavGrid.build (xyMin xyMax : ℚ × ℚ) (cellSize : ℚ)
    (obstacles : List AABB) (inflate : ℚ) : Except String NavGrid :=
  if xyMax.1 ≤ xyMin.1 ∨ xyMax.2 ≤ xyMin.2 then .error "Invalid bounds"
  else if cellSize ≤ 0 then .error "cell_size must be > 0"
  else
    let width : ℕ := (⌈(xyMax.1 - xyMin.1) / cellSize⌉).toNat
    let height : ℕ := (⌈(xyMax.2 - xyMin.2) / cellSize⌉).toNat
    let inflated := obstacles.map (fun o => o.inflated inflate)
    let rows := (List.range height).map (fun (iy : ℕ) =>
      (List.range width).map (fun (ix : ℕ) =>
        let cx0 := xyMin.1 + (ix : ℚ) * cellSize
        let cy0 := xyMin.2 + (iy : ℚ) * cellSize
        let cx1 := cx0 + cellSize
        let cy1 := cy0 + cellSize
        inflated.any (fun o => aabbIntersects cx0 cy0 cx1 cy1 o)))
    .ok ⟨xyMin, xyMax, cellSize, width, height, rows⟩

/-- NavGrid.in_bounds from the source. -/
def NavGrid.inBounds (g : NavGrid) (c : Cell) : Bool :=
  decide (0 ≤ c.1 ∧ c.1 < (g.width : ℤ) ∧ 0 ≤ c.2 ∧ c.2 < (g.height : ℤ))

/-- NavGrid.is_blocked from the source; the table is only consulted for
in-bounds cells, out-of-range lookups default to blocked. -/
def NavGrid.isBlocked (g : NavGrid) (c : Cell) : Bool :=
  (g.blocked.getD c.2.toNat []).getD c.1.toNat true

/-- NavGrid.world_to_cell from the source: floor-divide by the cell size
and clamp into the valid index range. -/
def NavGrid.worldToCell (g : NavGrid) (x y : ℚ) : Cell :=
  let ix := ⌊(x - g.xyMin.1) / g.cellSize⌋
  let iy := ⌊(y - g.xyMin.2) / g.cellSize⌋
  (max 0 (min ((g.width : ℤ) - 1) ix), max 0 (min ((g.height : ℤ) - 1) iy))

/-- NavGrid.cell_center_world from the source. -/
def NavGrid.cellCenterWorld (g : NavGrid) (c : Cell) : ℚ × ℚ :=
  (g.xyMin.1 + ((c.1 : ℚ) + 1/2) * g.cellSize,
   g.xyMin.2 + ((c.2 : ℚ) + 1/2) * g.cellSize)

/-- NavGrid.neighbors4 from the source: in-bounds, unblocked 4-connected
neighbors, in the fixed order right, left, up, down. -/
def NavGrid.neighbors4 (g : NavGrid) (c : Cell) : List Cell :=
  (([(1, 0), (-1, 0), (0, 1), (0, -1)] : List (ℤ × ℤ)).map
      (fun d => (c.1 + d.1, c.2 + d.2))).filter
    (fun n => g.inBounds n && !g.isBlocked n)

/-- The world-space rectangle of one grid cell, as rasterized by
NavGrid.build: corner at xy_min plus the index times the cell size. -/
def NavGrid.cellRect (g : NavGrid) (c : Cell) : ℚ × ℚ × ℚ × ℚ :=
  (g.xyMin.1 + (c.1 : ℚ) * g.cellSize, g.xyMin.2 + (c.2 : ℚ) * g.cellSize,
   g.xyMin.1 + (c.1 : ℚ) * g.cellSize + g.cellSize,
   g.xyMin.2 + (c.2 : ℚ) * g.cellSize + g.cellSize)

/-- A cell blocks iff its world rectangle meets some inflated obstacle. -/
def blockedSpec (g : NavGrid) (obstacles : List AABB) (inflate : ℚ)
    (c : Cell) : Prop :=
  ∃ o ∈ obstacles,
    aabbIntersects (g.cellRect c).1 (g.cellRect c).2.1 (g.cellRect c).2.2.1
      (g.cellRect c).2.2.2 (o.inflated inflate) = true

/-- The concrete obstacle of the spec example: AABB(-0.4,-0.4,0.4,0.4). -/
def demoObstacle : AABB := ⟨-2/5, -2/5, 2/5, 2/5⟩

/-- The grid the spec example builds: 4 by 4 cells over (-2,-2)-(2,2),
with exactly the four cells touching the origin blocked. -/
def demoGrid : NavGrid :=
  ⟨((-2 : ℚ), -2), (2, 2), 1, 4, 4,
    [[false, false, false, false], [false, true, true, false],
     [false, true, true, false], [false, false, false, false]]⟩

/-- Step vector from cell a to cell b. -/
def cellDiff (a b : Cell) : ℤ × ℤ := (b.1 - a.1, b.2 - a.2)

/-- Interior loop of pathfinding.simplify_path_cells: prevDir is the
direction that entered the current head cell; a cell is emitted when its
outgoing direction differs; the final cell is always emitted. -/
def simpGo (prevDir : ℤ × ℤ) : List Cell → List Cell
  | cur :: nxt :: rest =>
      (if cellDiff cur nxt ≠ prevDir then [cur] else []) ++
        simpGo (cellDiff cur nxt) (nxt :: rest)
  | l => l

/-- pathfinding.simplify_path_cells: drop intermediate collinear points
from a 4-connected grid path; paths of two or fewer cells are returned
unchanged. -/
def simplify_path_cells : List Cell → List Cell
  | p0 :: p1 :: p2 :: rest => p0 :: simpGo (cellDiff p0 p1) (p1 :: p2 :: rest)
  | p => p

/-- cells_to_waypoints from the source. -/
def cells_to_waypoints (g : NavGrid) (path : List Cell) : List (ℚ × ℚ) :=
  path.map (fun c => g.cellCenterWorld c)

/-- The 4-action discrete control space, actions.DiscreteAction. -/
inductive DiscreteAction where
  | ACCELERATE
  | DECELERATE
  | TURN_LEFT
  | TURN_RIGHT
deriving DecidableEq, Repr

/-- Control-relevant fields of car.CarBlockConfig. -/
structure CarCfg where
  maxSpeed : ℚ
  speedDelta : ℚ
  turnRate : ℚ
deriving DecidableEq, Repr

/-- The actuator targets mutated by CarBlock.apply_action:
self._target_speed and self._target_yaw_rate. -/
structure CtrlState where
  targetSpeed : ℚ
  targetYawRate : ℚ
deriving DecidableEq, Repr

/-- CarBlock.apply_action from the source: accelerate and decelerate
move the target speed by speed_delta, clamped at max_speed and 0
respectively, and zero the target yaw-rate; turns set the target
yaw-rate to plus or minus turn_rate and keep the target speed. -/
def apply_action (cfg : CarCfg) (s : CtrlState)
    (a : DiscreteAction) : CtrlState :=
  match a with
  | .ACCELERATE => ⟨min cfg.maxSpeed (s.targetSpeed + cfg.speedDelta), 0⟩
  | .DECELERATE => ⟨max 0 (s.targetSpeed - cfg.speedDelta), 0⟩
  | .TURN_LEFT => ⟨s.targetSpeed, cfg.turnRate⟩
  | .TURN_RIGHT => ⟨s.targetSpeed, -cfg.turnRate⟩

/-- Heap entry (f, g, cell): the tuples astar pushes onto the heapq.
The f and g scores are floats in the source but only ever take integral
values (unit edge costs, integer Manhattan heuristic), so they are
embedded as naturals. -/
abbrev AEntry := ℕ × ℕ × Cell

/-- Lexicographic order on heap entries: Python compares the
(f, g, (ix, iy)) tuples componentwise. -/
def entLe (a b : AEntry) : Bool :=
  if a.1 = b.1 then
    if a.2.1 = b.2.1 then
      if a.2.2.1 = b.2.2.1 then decide (a.2.2.2 ≤ b.2.2.2)
      else decide (a.2.2.1 < b.2.2.1)
    else decide (a.2.1 < b.2.1)
  else decide (a.1 < b.1)

/-- Smallest entry of a nonempty heap under entLe. -/
def heapMin : AEntry → List AEntry → AEntry
  | m, [] => m
  | m, e :: es => heapMin (if entLe e m then e else m) es

/-- heapq.heappop: remove and return a least tuple of the heap.  The
source binary heap pops some least element; which physical copy of an
equal tuple pops first is unobservable, so the leftmost least value is
removed. -/
def eraseFirst : List AEntry → AEntry → List AEntry
  | [], _ => []
  | x :: xs, m => if x = m then xs else x :: eraseFirst xs m

def popMin (h : List AEntry) : Option (AEntry × List AEntry) :=
  match h with
  | [] => none
  | e :: es =>
    let m := heapMin e es
    some (m, eraseFirst (e :: es) m)

/-- Lookup in an association list with Python dict semantics. -/
def lookupA {β : Type} : List (Cell × β) → Cell → Option β
  | [], _ => none
  | (k2, v) :: rest, k => if k2 = k then some v else lookupA rest k

/-- Insert with Python dict semantics: overwrite the existing binding in
place, or append a new one; keys stay distinct. -/
def insertA {β : Type} : List (Cell × β) → Cell → β → List (Cell × β)
  | [], k, v => [(k, v)]
  | (k2, v2) :: rest, k, v =>
      if k2 = k then (k, v) :: rest else (k2, v2) :: insertA rest k v

/-- The Manhattan distance heuristic h of astar (admissible for
4-connected movement). -/
def hManhattan (goal c : Cell) : ℕ :=
  (c.1 - goal.1).natAbs + (c.2 - goal.2).natAbs

/-- pathfinding._reconstruct, with the predecessor chain followed on
explicit fuel; the chain strictly decreases g-scores, so
came.length + 1 lookups always reach a cell with no predecessor. -/
def reconList (came : List (Cell × Cell)) : ℕ → Cell → List Cell
  | 0, c => [c]
  | n + 1, c =>
    match lookupA came c with
    | some p => c :: reconList came n p
    | none => [c]

/-- pathfinding._reconstruct: build goal-to-start, then reverse. -/
def reconstructPath (came : List (Cell × Cell)) (cur : Cell) : List Cell :=
  (reconList came (came.length + 1) cur).reverse

/-- Mutable state of the astar main loop: open heap, g_score dict and
came_from dict. -/
structure AState where
  heap : List AEntry
  gs : List (Cell × ℕ)
  came : List (Cell × Cell)

/-- The body of the neighbor loop of astar: relax one neighbor nb of the
popped cell cur whose g-score is gv, pushing an improved entry. -/
def relaxCell (g : NavGrid) (goal cur : Cell) (gv : ℕ) (σ2 : AState)
    (nb : Cell) : AState :=
  let ng := gv + 1
  let better := match lookupA σ2.gs nb with
    | none => true
    | some x => decide (ng < x)
  if better then
    ⟨(ng + hManhattan goal nb, ng, nb) :: σ2.heap,
     insertA σ2.gs nb ng, insertA σ2.came nb cur⟩
  else σ2

/-- One iteration of the astar while-loop: pop a least entry; return on
goal; skip stale entries; otherwise relax the 4-connected neighbors in
source order, pushing improved entries. -/
def astarStep (g : NavGrid) (goal : Cell) (σ : AState) :
    Option (List Cell) ⊕ AState :=
  match popMin σ.heap with
  | none => .inl none
  | some (e, rest) =>
    let gv := e.2.1
    let cur := e.2.2
    if cur = goal then .inl (some (reconstructPath σ.came cur))
    else
      let stale := match lookupA σ.gs cur with
        | some x => decide (x < gv)
        | none => false
      if stale then .inr ⟨rest, σ.gs, σ.came⟩
      else
        .inr ((g.neighbors4 cur).foldl (relaxCell g goal cur gv)
          ⟨rest, σ.gs, σ.came⟩)

/-- The astar while-loop with explicit fuel.  astar always hands it
enough fuel, see astarFuel. -/
def astarLoop (g : NavGrid) (goal : Cell) : ℕ → AState → Option (List Cell)
  | 0, _ => none
  | n + 1, σ =>
    match astarStep g goal σ with
    | .inl r => r
    | .inr σ2 => astarLoop g goal n σ2

/-- Fuel that strictly dominates the loop measure from any start state,
so the fueled loop is the unbounded source loop. -/
def astarFuel (g : NavGrid) : ℕ :=
  5 * (g.width * g.height + 1) * (g.width * g.height) + 2

/-- pathfinding.astar: 4-connected A* with unit edge cost and Manhattan
heuristic; none when an endpoint is out of bounds or blocked or the open
heap empties. -/
def astar (g : NavGrid) (start goal : Cell) : Option (List Cell) :=
  if ¬ g.inBounds start ∨ ¬ g.inBounds goal then none
  else if g.isBlocked start ∨ g.isBlocked goal then none
  else astarLoop g goal (astarFuel g)
    ⟨[(hManhattan goal start, 0, start)], [(start, 0)], []⟩

/-- A 4-connected step between cells. -/
def adjCell (a b : Cell) : Prop :=
  (b.1 - a.1).natAbs + (b.2 - a.2).natAbs = 1

/-- An in-bounds, unblocked cell. -/
def freeCell (g : NavGrid) (c : Cell) : Prop :=
  g.inBounds c = true ∧ g.isBlocked c = false

/-- A valid grid path: consecutive cells one 4-connected step apart, no
cell blocked or out of bounds. -/
def ValidPath (g : NavGrid) (p : List Cell) : Prop :=
  List.Chain' adjCell p ∧ ∀ c ∈ p, freeCell g c

/-- A valid path from s to t inclusive. -/
def PathFrom (g : NavGrid) (p : List Cell) (s t : Cell) : Prop :=
  ValidPath g p ∧ p.head? = some s ∧ p.getLast? = some t

/-- s reaches t by a valid path of exactly n edges (n + 1 cells). -/
def ReachN (g : NavGrid) (s t : Cell) (n : ℕ) : Prop :=
  ∃ p, PathFrom g p s t ∧ p.length = n + 1

/-- An empty 4 by 4 grid, the setting of the astar spec example. -/
def emptyGrid4 : NavGrid :=
  ⟨((0 : ℚ), 0), (4, 4), 1, 4, 4,
    List.replicate 4 (List.replicate 4 false)⟩

/-- Sum of the stored g-scores. -/
def msum (l : List (Cell × ℕ)) : ℕ := (l.map (fun cv => cv.2)).sum

/-- Potential of the g_score table: decreases whenever a relaxation
inserts or improves a binding. -/
def gsPot (g : NavGrid) (l : List (Cell × ℕ)) : ℕ :=
  (g.width * g.height + 1) * (g.width * g.height - l.length) + msum l

/-- Termination measure of the astar loop: every iteration strictly
decreases it while the fuel astar provides strictly dominates it. -/
def aMeasure (g : NavGrid) (σ : AState) : ℕ :=
  5 * gsPot g σ.gs + σ.heap.length

/-- Loop invariant of astar relating the open heap, g_score and
came_from tables to real paths in the grid. -/
structure AInv (g : NavGrid) (start goal : Cell) (σ : AState) : Prop where
  hnodup : (σ.gs.map Prod.fst).Nodup
  hreach : ∀ cv ∈ σ.gs, ReachN g start cv.1 cv.2
  hbound : ∀ cv ∈ σ.gs, cv.2 < σ.gs.length
  hstart : lookupA σ.gs start = some 0
  hheap : ∀ e ∈ σ.heap, e.1 = e.2.1 + hManhattan goal e.2.2 ∧
    (∃ w, lookupA σ.gs e.2.2 = some w ∧ w ≤ e.2.1) ∧
    ReachN g start e.2.2 e.2.1
  hcame : ∀ c pr, lookupA σ.came c = some pr → adjCell pr c ∧
    ∃ v w, lookupA σ.gs c = some v ∧ lookupA σ.gs pr = some w ∧ w < v
  hcover : ∀ cv ∈ σ.gs, cv.1 = start ∨ ∃ pr, lookupA σ.came cv.1 = some pr

/-- The frontier witness invariant along a fixed shortest path p: some
index i of p is settled at its exact distance, its heap entry is still
open, and no later index of p is settled yet. -/
def SPInv (goal : Cell) (σ : AState) (p : List Cell) : Prop :=
  ∃ i a, p.get? i = some a ∧ lookupA σ.gs a = some i ∧
    (i + hManhattan goal a, i, a) ∈ σ.heap ∧
    ∀ j b, p.get? j = some b → lookupA σ.gs b = some j → j ≤ i

/-- One raw contact pair of the physics step: the two geometry indices
and the per-geometry contact force vectors (rows of force_a, force_b). -/
structure Contact where
  geomA : ℤ
  geomB : ℤ
  forceA : ℚ × ℚ × ℚ
  forceB : ℚ × ℚ × ℚ

/-- A contact with its force tensors erased: what poll_collision_events
can observe of a contact when it never fetches the force data. -/
def stripContact (c : Contact) : Contact :=
  ⟨c.geomA, c.geomB, (0, 0, 0), (0, 0, 0)⟩

/-- car.CollisionPhase. -/
inductive CollisionPhase where
  | BEGIN
  | END
deriving DecidableEq, Repr

/-- car.CollisionEvent; the entity object itself is identified by its
integer id. -/
structure CollisionEvent where
  stepIdx : ℤ
  phase : CollisionPhase
  otherId : ℕ
  maxForce : Option ℚ
  contactCount : ℕ
deriving DecidableEq, Repr

/-- The collision-tracking fields of CarBlock:
_collision_tracked_ranges, _collision_ignore_ranges,
_active_collision_entity_ids and _active_collision_max_force.  The keys
of _collision_tracked_by_id are the entity ids of the tracked ranges. -/
structure CollState where
  trackedRanges : List (ℤ × ℤ × ℕ)
  ignoreRanges : List (ℤ × ℤ)
  activeIds : Finset ℕ
  activeMaxForce : ℕ → Option ℚ

/-- Keys of _collision_tracked_by_id. -/
def trackedIdsOf (rs : List (ℤ × ℤ × ℕ)) : List ℕ :=
  rs.map (fun r => r.2.2)

/-- in_any_range from the source. -/
def inAnyRange (gm : ℤ) (rs : List (ℤ × ℤ)) : Bool :=
  rs.any (fun r => decide (r.1 ≤ gm ∧ gm < r.2))

/-- geom_to_tracked_id from the source: discard ignored geometry, else
return the id of the first tracked range containing the index. -/
def geomToTrackedId (gm : ℤ) (ign : List (ℤ × ℤ))
    (trk : List (ℤ × ℤ × ℕ)) : Option ℕ :=
  if inAnyRange gm ign then none
  else trk.findSome? (fun r =>
    if decide (r.1 ≤ gm ∧ gm < r.2.1) then some r.2.2 else none)

/-- The per-tick accumulation of poll_collision_events:
current_ids, current_counts and current_max_force. -/
structure PollAcc where
  ids : Finset ℕ
  counts : ℕ → ℕ
  maxf : ℕ → Option ℚ

/-- The guard part of processing one contact inside
poll_collision_events: resolve the other geometry of a contact touching
the car range, attribute it to a tracked entity, and threshold on the
contact-force magnitude when requested (norm3 abstracts
torch.linalg.vector_norm).  Returns none when the contact is skipped,
otherwise the attributed entity id and the force magnitude (none when
force data is not consulted).  The guard reads only the contact, never
the accumulator. -/
def contactKey (carGs carGe : ℤ) (ign : List (ℤ × ℤ))
    (trk : List (ℤ × ℤ × ℕ)) (minForce : ℚ) (norm3 : ℚ × ℚ × ℚ → ℚ)
    (useForce : Bool) (c : Contact) : Option (ℕ × Option ℚ) :=
  let inA := decide (carGs ≤ c.geomA ∧ c.geomA < carGe)
  let inB := decide (carGs ≤ c.geomB ∧ c.geomB < carGe)
  if inA || inB then
    let other := if inA then c.geomB else c.geomA
    match geomToTrackedId other ign trk with
    | none => none
    | some eid =>
      if useForce then
        let f := norm3 (if inA then c.forceA else c.forceB)
        if f < minForce then none else some (eid, some f)
      else some (eid, none)
  else none

/-- The accumulator update of poll_collision_events for one attributed
contact: record the id, bump its contact count, and fold the force
magnitude into the running per-entity maximum. -/
def applyContact (acc : PollAcc) : Option (ℕ × Option ℚ) → PollAcc
  | none => acc
  | some (eid, fo) =>
    ⟨insert eid acc.ids,
     fun n => if n = eid then acc.counts n + 1 else acc.counts n,
     match fo with
     | none => acc.maxf
     | some f => fun n =>
         if n = eid then
           some (match acc.maxf n with | none => f | some m => max m f)
         else acc.maxf n⟩

/-- Processing of one contact inside poll_collision_events. -/
def pollStep (carGs carGe : ℤ) (ign : List (ℤ × ℤ))
    (trk : List (ℤ × ℤ × ℕ)) (minForce : ℚ) (norm3 : ℚ × ℚ × ℚ → ℚ)
    (useForce : Bool) (acc : PollAcc) (c : Contact) : PollAcc :=
  applyContact acc (contactKey carGs carGe ign trk minForce norm3 useForce c)

/-- The whole per-tick accumulation over the contact list:
current_ids, current_counts, current_max_force. -/
def pollAccum (carGs carGe : ℤ) (ign : List (ℤ × ℤ))
    (trk : List (ℤ × ℤ × ℕ)) (minForce : ℚ) (norm3 : ℚ × ℚ × ℚ → ℚ)
    (useForce : Bool) (cl : List Contact) : PollAcc :=
  cl.foldl (pollStep carGs carGe ign trk minForce norm3 useForce)
    ⟨∅, fun _ => 0, fun _ => none⟩

/-- The sorted BEGIN id list of one poll: ids gained since the previous
tick, restricted to ids present in _collision_tracked_by_id. -/
def pollBegins (acc : PollAcc) (st : CollState) : List ℕ :=
  ((acc.ids \ st.activeIds).sort (· ≤ ·)).filter
    (fun eid => decide (eid ∈ trackedIdsOf st.trackedRanges))

/-- The sorted END id list of one poll: ids lost since the previous
tick, restricted to ids present in _collision_tracked_by_id. -/
def pollEnds (acc : PollAcc) (st : CollState) : List ℕ :=
  ((st.activeIds \ acc.ids).sort (· ≤ ·)).filter
    (fun eid => decide (eid ∈ trackedIdsOf st.trackedRanges))

/-- _active_collision_max_force after the BEGIN loop stored
current_max_force.get(eid, 0.0) for every beginning id. -/
def afterBeginsF (acc : PollAcc) (st : CollState) : ℕ → Option ℚ :=
  fun n =>
    if n ∈ pollBegins acc st then some ((acc.maxf n).getD 0)
    else st.activeMaxForce n

/-- _active_collision_max_force after the END loop popped every ending
id. -/
def afterEndsF (acc : PollAcc) (st : CollState) : ℕ → Option ℚ :=
  fun n => if n ∈ pollEnds acc st then none else afterBeginsF acc st n

/-- _active_collision_max_force at the end of the poll, after the final
overwrite from current_max_force. -/
def finalMaxF (acc : PollAcc) (st : CollState) : ℕ → Option ℚ :=
  fun n =>
    match acc.maxf n with
    | some m => some m
    | none => afterEndsF acc st n

/-- CarBlock.poll_collision_events from the source.  carRange is the
geometry range of the polling actor (none when the backend does not
expose it); contacts is none when contact introspection is unavailable,
otherwise the contact list together with whether the contact dict
carries the force tensors.  Registered handler callbacks receive the
same event list and are outside this model. -/
def poll_collision_events (norm3 : ℚ × ℚ × ℚ → ℚ) (st : CollState)
    (stepIdx : ℤ) (minForce : ℚ) (carRange : Option (ℤ × ℤ))
    (contacts : Option (List Contact × Bool)) :
    List CollisionEvent × CollState :=
  if st.trackedRanges = [] then ([], st)
  else
    match carRange with
    | none => ([], st)
    | some (gs, ge) =>
      match contacts with
      | none => ([], st)
      | some (cl, forcesAvail) =>
        let useForce := decide (0 < minForce) && forcesAvail
        let acc := pollAccum gs ge st.ignoreRanges st.trackedRanges
          minForce norm3 useForce cl
        ((pollBegins acc st).map (fun eid =>
            ⟨stepIdx, .BEGIN, eid, acc.maxf eid, acc.counts eid⟩)
          ++ (pollEnds acc st).map (fun eid =>
            (⟨stepIdx, .END, eid, afterBeginsF acc st eid, 0⟩ :
              CollisionEvent)),
         ⟨st.trackedRanges, st.ignoreRanges, acc.ids, finalMaxF acc st⟩)

/-- The real-valued math operations used by the NPC policy (math.cos,
math.sin, math.atan2, math.hypot and the constant math.pi), abstracted
as an oracle: the policy only ever applies them to its own inputs. -/
structure MathOps where
  cos : ℚ → ℚ
  sin : ℚ → ℚ
  atan2 : ℚ → ℚ → ℚ
  hypot : ℚ → ℚ → ℚ
  pi : ℚ

/-- random.Random as a deterministic draw stream: the stream function
together with the position of the next draw. -/
def Rng : Type := (ℕ → ℚ) × ℕ

/-- random.Random.random: take the next draw. -/
def rngRandom (r : Rng) : ℚ × Rng := (r.1 r.2, (r.1, r.2 + 1))

/-- random.Random.uniform(a, b) = a + (b - a) * random(). -/
def rngUniform (a b : ℚ) (r : Rng) : ℚ × Rng :=
  let x := rngRandom r
  (a + (b - a) * x.1, x.2)

/-- The result of sim.raycast: whether the ray hit, and the reported
hit distance when the backend can answer distance queries. -/
structure RayHit where
  hit : Bool
  distance : Option ℚ

/-- An entry of the obstacles iterable given to policy_step: whether it
is the NPC entity itself, and its XY position when sim.get_position
succeeds for it. -/
structure ProxObstacle where
  isSelf : Bool
  pos : Option (ℚ × ℚ)

/-- The NPCBlockConfig fields read by the steering policy. -/
structure NPCCfg where
  roamXyMin : ℚ × ℚ
  roamXyMax : ℚ × ℚ
  goalTolerance : ℚ
  cruiseSpeed : ℚ
  headingThreshold : ℚ
  raycastLength : ℚ
  raycastAngle : ℚ
  avoidDistance : ℚ
  brakeDistance : ℚ
  avoidRadius : ℚ
  emergencyBrakeRadius : ℚ
  stuckSteps : ℕ
  progressEps : ℚ
  waypointTolerance : ℚ
  maxGoalSamples : ℕ

/-- The mutable NPC planning state: _yaw and _target_speed from
CarBlock, plus _goal_xy, _prev_goal_dist, _stuck_counter, _waypoints_xy
and _waypoint_idx. -/
structure NPCState where
  yaw : ℚ
  targetSpeed : ℚ
  goal : Option (ℚ × ℚ)
  prevGoalDist : Option ℚ
  stuck : ℕ
  waypoints : List (ℚ × ℚ)
  wpIdx : ℕ

/-- npc._wrap_pi in closed form: for pi > 0 the first while loop
subtracts 2 * pi exactly ceil((a - pi) / (2 * pi)) times, the second
adds 2 * pi exactly ceil((-pi - a) / (2 * pi)) times, and at most one
of the loops runs. -/
def wrap_pi (pi a : ℚ) : ℚ :=
  if pi < a then a - 2 * pi * ((⌈(a - pi) / (2 * pi)⌉ : ℤ) : ℚ)
  else if a < -pi then a + 2 * pi * ((⌈(-pi - a) / (2 * pi)⌉ : ℤ) : ℚ)
  else a

/-- The waypoint-advance while loop of policy_step: skip every leading
waypoint within waypoint_tolerance of the current position.  The fuel
is called with list length + 1, an upper bound on the iterations. -/
def wpAdvance (M : MathOps) (tol px py : ℚ) (wps : List (ℚ × ℚ)) :
    ℕ → ℕ → ℕ
  | idx, 0 => idx
  | idx, fuel + 1 =>
    match wps[idx]? with
    | none => idx
    | some w =>
      if M.hypot (w.1 - px) (w.2 - py) ≤ tol then
        wpAdvance M tol px py wps (idx + 1) fuel
      else idx

/-- The goal-sampling for-loop of pick_new_goal: up to
max(1, max_goal_samples) attempts at drawing an astar-reachable goal;
the for-else fallback keeps an unplanned goal and clears the
waypoints. -/
def goalSampleLoop (M : MathOps) (cfg : NPCCfg) (g : NavGrid)
    (start : Cell) (s : NPCState) : ℕ → Rng → NPCState × Rng
  | 0, r =>
    let gx := rngUniform cfg.roamXyMin.1 cfg.roamXyMax.1 r
    let gy := rngUniform cfg.roamXyMin.2 cfg.roamXyMax.2 gx.2
    ({s with goal := some (gx.1, gy.1), waypoints := [], wpIdx := 0}, gy.2)
  | n + 1, r =>
    let gx := rngUniform cfg.roamXyMin.1 cfg.roamXyMax.1 r
    let gy := rngUniform cfg.roamXyMin.2 cfg.roamXyMax.2 gx.2
    match astar g start (g.worldToCell gx.1 gy.1) with
    | none => goalSampleLoop M cfg g start s n gy.2
    | some path =>
      ({s with
          waypoints := cells_to_waypoints g (simplify_path_cells path),
          wpIdx := 0, goal := some (gx.1, gy.1)}, gy.2)

/-- NPCBlock.pick_new_goal from the source; afterwards
_prev_goal_dist is None and the stuck counter is 0. -/
def pick_new_goal (M : MathOps) (cfg : NPCCfg) (grid : Option NavGrid)
    (pxy : ℚ × ℚ) (s : NPCState) (r : Rng) : NPCState × Rng :=
  let res :=
    match grid with
    | some g =>
      goalSampleLoop M cfg g (g.worldToCell pxy.1 pxy.2) s
        (max 1 cfg.maxGoalSamples) r
    | none =>
      let gx := rngUniform cfg.roamXyMin.1 cfg.roamXyMax.1 r
      let gy := rngUniform cfg.roamXyMin.2 cfg.roamXyMax.2 gx.2
      ({s with goal := some (gx.1, gy.1)}, gy.2)
  ({res.1 with prevGoalDist := none, stuck := 0}, res.2)

/-- The obstacle loop of npc._avoid_with_proximity, with its early
DECELERATE return and nearest-candidate (distance, cross) tracking.
The Python float literal 1e-9 is modelled by the rational 1 / 10^9. -/
def avoidProxLoop (M : MathOps) (cfg : NPCCfg) (px py fx fy : ℚ) :
    List ProxObstacle → Option (ℚ × ℚ) → Option DiscreteAction
  | [], best =>
    match best with
    | none => none
    | some b =>
      some (if 0 < b.2 then DiscreteAction.TURN_RIGHT
        else DiscreteAction.TURN_LEFT)
  | o :: rest, best =>
    if o.isSelf then avoidProxLoop M cfg px py fx fy rest best
    else
      match o.pos with
      | none => avoidProxLoop M cfg px py fx fy rest best
      | some op =>
        let dx := op.1 - px
        let dy := op.2 - py
        let dist := M.hypot dx dy
        if dist ≤ 1 / 1000000000 then
          avoidProxLoop M cfg px py fx fy rest best
        else if dx * fx + dy * fy ≤ 0 then
          avoidProxLoop M cfg px py fx fy rest best
        else if dist ≤ cfg.emergencyBrakeRadius then
          some DiscreteAction.DECELERATE
        else if dist ≤ cfg.avoidRadius then
          match best with
          | none =>
            avoidProxLoop M cfg px py fx fy rest
              (some (dist, fx * dy - fy * dx))
          | some b =>
            if dist < b.1 then
              avoidProxLoop M cfg px py fx fy rest
                (some (dist, fx * dy - fy * dx))
            else avoidProxLoop M cfg px py fx fy rest best
        else avoidProxLoop M cfg px py fx fy rest best

/-- npc._avoid_with_proximity from the source (leading underscore
dropped). -/
def avoid_with_proximity (M : MathOps) (cfg : NPCCfg) (pxy : ℚ × ℚ)
    (yaw : ℚ) (obstacles : List ProxObstacle) : Option DiscreteAction :=
  avoidProxLoop M cfg pxy.1 pxy.2 (M.cos yaw) (M.sin yaw) obstacles none

/-- npc._avoid_with_rays from the source (leading underscore dropped):
ray answers come from the raycast oracle; the rng is consumed only by
the both-or-neither-blocked random turn. -/
def avoid_with_rays (M : MathOps) (cfg : NPCCfg)
    (ray : ℚ × ℚ × ℚ → ℚ × ℚ × ℚ → ℚ → RayHit) (pos3 : ℚ × ℚ × ℚ)
    (yaw : ℚ) (r : Rng) : Option DiscreteAction × Rng :=
  let origin := (pos3.1, pos3.2.1, pos3.2.2 + 1 / 10)
  let fx := M.cos yaw
  let fy := M.sin yaw
  let lft := (M.cos cfg.raycastAngle * fx - M.sin cfg.raycastAngle * fy,
    M.sin cfg.raycastAngle * fx + M.cos cfg.raycastAngle * fy, (0 : ℚ))
  let rgt :=
    (M.cos (-cfg.raycastAngle) * fx - M.sin (-cfg.raycastAngle) * fy,
     M.sin (-cfg.raycastAngle) * fx + M.cos (-cfg.raycastAngle) * fy,
     (0 : ℚ))
  let hc := ray origin (fx, fy, (0 : ℚ)) cfg.raycastLength
  if !hc.hit then (none, r)
  else
    match hc.distance with
    | none => (none, r)
    | some d =>
      if cfg.avoidDistance < d then (none, r)
      else if d ≤ cfg.brakeDistance then
        (some DiscreteAction.DECELERATE, r)
      else
        let hl := ray origin lft cfg.raycastLength
        let hr := ray origin rgt cfg.raycastLength
        let leftBlocked := hl.hit &&
          (match hl.distance with
           | none => true
           | some dl => decide (dl ≤ cfg.avoidDistance))
        let rightBlocked := hr.hit &&
          (match hr.distance with
           | none => true
           | some dr => decide (dr ≤ cfg.avoidDistance))
        if leftBlocked && !rightBlocked then
          (some DiscreteAction.TURN_RIGHT, r)
        else if rightBlocked && !leftBlocked then
          (some DiscreteAction.TURN_LEFT, r)
        else
          let x := rngRandom r
          (some (if x.1 < 1 / 2 then DiscreteAction.TURN_LEFT
            else DiscreteAction.TURN_RIGHT), x.2)

/-- NPCBlock.policy_step from the source.  Inputs beyond the planning
state: the math and rng oracles, the optional nav grid, the current XY
position (sim.get_position via _get_xy) and the obstacle snapshot
(none models obstacles=None).  The source never calls _avoid_with_rays
from policy_step, so no raycast oracle appears among its inputs. -/
def policy_step (M : MathOps) (cfg : NPCCfg) (grid : Option NavGrid)
    (pxy : ℚ × ℚ) (obstacles : Option (List ProxObstacle))
    (s : NPCState) (r : Rng) : DiscreteAction × NPCState × Rng :=
  let init :=
    if s.goal.isNone then pick_new_goal M cfg grid pxy s r else (s, r)
  let s1 := init.1
  let r1 := init.2
  let px := pxy.1
  let py := pxy.2
  let tgt0 := s1.goal.getD (0, 0)
  let wphase :=
    match grid with
    | none => (tgt0, s1, r1)
    | some _ =>
      if s1.waypoints = [] then (tgt0, s1, r1)
      else
        let idx := wpAdvance M cfg.waypointTolerance px py s1.waypoints
          s1.wpIdx (s1.waypoints.length + 1)
        if s1.waypoints.length ≤ idx then
          let pg := pick_new_goal M cfg grid pxy {s1 with wpIdx := idx} r1
          (pg.1.goal.getD (0, 0), pg.1, pg.2)
        else (s1.waypoints.getD idx (0, 0), {s1 with wpIdx := idx}, r1)
  let target := wphase.1
  let s2 := wphase.2.1
  let r2 := wphase.2.2
  let dx := target.1 - px
  let dy := target.2 - py
  let targetDist := M.hypot dx dy
  if grid = none ∧ targetDist ≤ cfg.goalTolerance then
    let pg := pick_new_goal M cfg grid pxy s2 r2
    let x := rngRandom pg.2
    (if x.1 < 1 / 2 then DiscreteAction.TURN_LEFT
      else DiscreteAction.TURN_RIGHT, pg.1, x.2)
  else
    let stuck2 :=
      match s2.prevGoalDist with
      | some pd => if pd - cfg.progressEps ≤ targetDist then s2.stuck + 1
        else 0
      | none => 0
    let s3 := {s2 with prevGoalDist := some targetDist, stuck := stuck2}
    if cfg.stuckSteps ≤ stuck2 then
      let rcv :=
        match grid, s3.goal with
        | some g, some gxy =>
          match astar g (g.worldToCell px py)
              (g.worldToCell gxy.1 gxy.2) with
          | some path =>
            ({s3 with
                waypoints := cells_to_waypoints g (simplify_path_cells path),
                wpIdx := 0, stuck := 0}, r2)
          | none => pick_new_goal M cfg grid pxy s3 r2
        | _, _ => pick_new_goal M cfg grid pxy s3 r2
      let x := rngRandom rcv.2
      (if x.1 < 1 / 2 then DiscreteAction.TURN_LEFT
        else DiscreteAction.TURN_RIGHT, rcv.1, x.2)
    else
      let prox :=
        match obstacles with
        | none => none
        | some obs => avoid_with_proximity M cfg pxy s3.yaw obs
      match prox with
      | some a => (a, s3, r2)
      | none =>
        let yawErr := wrap_pi M.pi (M.atan2 dy dx - s3.yaw)
        if cfg.headingThreshold < |yawErr| then
          (if 0 < yawErr then DiscreteAction.TURN_LEFT
            else DiscreteAction.TURN_RIGHT, s3, r2)
        else if s3.targetSpeed < cfg.cruiseSpeed then
          (DiscreteAction.ACCELERATE, s3, r2)
        else (DiscreteAction.DECELERATE, s3, r2)

/-- A multi-tick run of the NPC policy over per-tick position and
obstacle snapshots, collecting the action sequence. -/
def npcRun (M : MathOps) (cfg : NPCCfg) (grid : Option NavGrid) :
    List ((ℚ × ℚ) × Option (List ProxObstacle)) → NPCState → Rng →
      List DiscreteAction × NPCState × Rng
  | [], s, r => ([], s, r)
  | t :: rest, s, r =>
    let step := policy_step M cfg grid t.1 t.2 s r
    let tail := npcRun M cfg grid rest step.2.1 step.2.2
    (step.1 :: tail.1, tail.2)

/-- A concrete math oracle agreeing with the real functions at every
point the C1 scenario probes: cos 0 = 1, sin 0 = 0, atan2 0 dx = 0 for
dx > 0, hypot dx 0 = dx for dx ≥ 0, and a positive stand-in for pi. -/
def demoMathOps : MathOps :=
  ⟨fun _ => 1, fun _ => 0, fun _ _ => 0, fun dx _ => dx, 4⟩

/-- An NPC configuration with brake distance 1 and avoid distance 2. -/
def demoNpcCfg : NPCCfg :=
  ⟨(-5, -5), (5, 5), 1, 2, 1, 2, 1, 2, 1, 1, 1, 30, 1, 1, 50⟩

/-- A raycast oracle whose every ray, in particular the forward one,
hits at distance 1: within the brake distance of demoNpcCfg. -/
def demoRay : ℚ × ℚ × ℚ → ℚ × ℚ × ℚ → ℚ → RayHit :=
  fun _ _ _ => ⟨true, some 1⟩

/-- NPC state heading along +x toward a goal at (10, 0), stationary,
not stuck, without waypoints. -/
def demoNpcState : NPCState := ⟨0, 0, some (10, 0), none, 0, [], 0⟩

/-- The all-zeros rng stream. -/
def demoRng : Rng := (fun _ => 0, 0)

instance {ε α : Type} [DecidableEq ε] [DecidableEq α] :
    DecidableEq (Except ε α) := fun a b =>
  match a, b with
  | .error e, .error f =>
      if h : e = f then .isTrue (by rw [h]) else .isFalse (by simp [h])
  | .ok x, .ok y =>
      if h : x = y then .isTrue (by rw [h]) else .isFalse (by simp [h])
  | .error _, .ok _ => .isFalse (by simp)
  | .ok _, .error _ => .isFalse (by simp)

lemma NavGrid.build_ok {xyMin xyMax : ℚ × ℚ} {cs : ℚ} {obs : List AABB}
    {inf : ℚ} {g : NavGrid}
    (h : NavGrid.build xyMin xyMax cs obs inf = .ok g) :
    g.xyMin = xyMin ∧ g.cellSize = cs ∧
      g.blocked = (List.range g.height).map (fun (iy : ℕ) =>
        (List.range g.width).map (fun (ix : ℕ) =>
          (obs.map (fun o => o.inflated inf)).any (fun o =>
            aabbIntersects (xyMin.1 + (ix : ℚ) * cs) (xyMin.2 + (iy : ℚ) * cs)
              (xyMin.1 + (ix : ℚ) * cs + cs) (xyMin.2 + (iy : ℚ) * cs + cs)
              o))) := by
  unfold NavGrid.build at h
  split at h
  · exact absurd h (by simp)
  split at h
  · exact absurd h (by simp)
  simp only [Except.ok.injEq] at h
  subst h
  exact ⟨rfl, rfl, rfl⟩

lemma getD_map_range {α : Type} (h : ℕ) (f : ℕ → α) (i : ℕ) (d : α)
    (hi : i < h) : (((List.range h).map f).getD i d) = f i := by
  rw [List.getD_eq_getElem?_getD]
  rw [List.getElem?_map, List.getElem?_range hi]
  rfl

/-- C3 general part: in any successfully built grid, a cell in bounds is
blocked iff its world rectangle intersects some inflated obstacle. -/
lemma build_blocked_iff {xyMin xyMax : ℚ × ℚ} {cs : ℚ} {obs : List AABB}
    {inf : ℚ} {g : NavGrid}
    (h : NavGrid.build xyMin xyMax cs obs inf = .ok g)
    (c : Cell) (hc : g.inBounds c = true) :
    g.isBlocked c = true ↔ blockedSpec g obs inf c := by
  obtain ⟨hmin, hcs, hbl⟩ := NavGrid.build_ok h
  simp only [NavGrid.inBounds, decide_eq_true_eq] at hc
  obtain ⟨h1, h2, h3, h4⟩ := hc
  have hxnat : (c.1.toNat : ℤ) = c.1 := Int.toNat_of_nonneg h1
  have hynat : (c.2.toNat : ℤ) = c.2 := Int.toNat_of_nonneg h3
  have hxlt : c.1.toNat < g.width := by omega
  have hylt : c.2.toNat < g.height := by omega
  have hxq : ((c.1.toNat : ℕ) : ℚ) = (c.1 : ℚ) := by
    exact_mod_cast congrArg (fun z : ℤ => (z : ℚ)) hxnat
  have hyq : ((c.2.toNat : ℕ) : ℚ) = (c.2 : ℚ) := by
    exact_mod_cast congrArg (fun z : ℤ => (z : ℚ)) hynat
  rw [NavGrid.isBlocked, hbl]
  rw [getD_map_range _ _ _ _ hylt, getD_map_range _ _ _ _ hxlt]
  rw [List.any_eq_true]
  constructor
  · rintro ⟨o, ho, hint⟩
    rw [List.mem_map] at ho
    obtain ⟨o0, ho0, rfl⟩ := ho
    refine ⟨o0, ho0, ?_⟩
    simp only [NavGrid.cellRect, hmin, hcs]
    rw [hxq, hyq] at hint
    exact hint
  · rintro ⟨o0, ho0, hint⟩
    refine ⟨o0.inflated inf, List.mem_map.mpr ⟨o0, ho0, rfl⟩, ?_⟩
    simp only [NavGrid.cellRect, hmin, hcs] at hint
    rw [hxq, hyq]
    exact hint

lemma build_demo :
    NavGrid.build ((-2 : ℚ), -2) (2, 2) 1 [demoObstacle] 0 = .ok demoGrid := by
  show NavGrid.build ((-2 : ℚ), -2) (2, 2) 1 [⟨-2/5, -2/5, 2/5, 2/5⟩] 0 =
    .ok ⟨((-2 : ℚ), -2), (2, 2), 1, 4, 4,
      [[false, false, false, false], [false, true, true, false],
       [false, true, true, false], [false, false, false, false]]⟩
  rw [NavGrid.build]
  norm_num
  constructor
  · rfl
  simp only [Int.reduceToNat]
  simp only [List.range_succ, List.range_zero, List.map_append, List.map_cons,
    List.map_nil, List.nil_append, List.cons_append, List.any_cons,
    List.any_nil, AABB.inflated, aabbIntersects]
  norm_num

lemma entLe_refl (a : AEntry) : entLe a a = true := by
  simp [entLe]

lemma entLe_total (a b : AEntry) : entLe a b = true ∨ entLe b a = true := by
  unfold entLe
  split_ifs <;> simp_all <;> omega

lemma entLe_trans {a b c : AEntry} (h1 : entLe a b = true)
    (h2 : entLe b c = true) : entLe a c = true := by
  unfold entLe at *
  split_ifs at * <;> simp_all <;> omega

lemma entLe_f_le {a b : AEntry} (h : entLe a b = true) : a.1 ≤ b.1 := by
  unfold entLe at h
  split_ifs at h <;> simp_all <;> omega

lemma heapMin_mem : ∀ (e : AEntry) (es : List AEntry),
    heapMin e es ∈ e :: es := by
  intro e es
  induction es generalizing e with
  | nil => simp [heapMin]
  | cons x xs ih =>
    rw [heapMin]
    rcases List.mem_cons.mp (ih (if entLe x e then x else e)) with h | h
    · rw [h]
      split
      · simp
      · simp
    · simp [List.mem_cons_of_mem, h]

lemma heapMin_le : ∀ (e : AEntry) (es : List AEntry),
    ∀ x ∈ e :: es, entLe (heapMin e es) x = true := by
  intro e es
  induction es generalizing e with
  | nil =>
    intro x hx
    simp at hx
    subst hx
    exact entLe_refl _
  | cons y ys ih =>
    intro x hx
    rw [heapMin]
    have hm : entLe (if entLe y e then y else e) e = true ∧
        entLe (if entLe y e then y else e) y = true := by
      split
      · next hye => exact ⟨hye, entLe_refl _⟩
      · next hye =>
        refine ⟨entLe_refl _, ?_⟩
        rcases entLe_total y e with h | h
        · exact absurd h hye
        · exact h
    have hmin := ih (if entLe y e then y else e)
    rcases List.mem_cons.mp hx with rfl | hx2
    · exact entLe_trans (hmin _ (by simp)) hm.1
    rcases List.mem_cons.mp hx2 with rfl | hx3
    · exact entLe_trans (hmin _ (by simp)) hm.2
    · exact hmin x (by simp [hx3])

lemma popMin_spec {h : List AEntry} {m : AEntry} {rest : List AEntry}
    (hp : popMin h = some (m, rest)) :
    m ∈ h ∧ rest = eraseFirst h m ∧ ∀ x ∈ h, entLe m x = true := by
  cases h with
  | nil => simp [popMin] at hp
  | cons e es =>
    simp only [popMin, Option.some.injEq, Prod.mk.injEq] at hp
    obtain ⟨rfl, rfl⟩ := hp
    exact ⟨heapMin_mem e es, rfl, heapMin_le e es⟩

lemma eraseFirst_perm {h : List AEntry} {m : AEntry} (hm : m ∈ h) :
    h.Perm (m :: eraseFirst h m) := by
  induction h with
  | nil => simp at hm
  | cons x xs ih =>
    rw [eraseFirst]
    split
    · next he => rw [he]
    · next he =>
      rcases List.mem_cons.mp hm with rfl | hm2
      · exact absurd rfl he
      · exact ((ih hm2).cons x).trans (List.Perm.swap _ _ _)

lemma popMin_perm {h : List AEntry} {m : AEntry} {rest : List AEntry}
    (hp : popMin h = some (m, rest)) : h.Perm (m :: rest) := by
  obtain ⟨hm, hr, _⟩ := popMin_spec hp
  rw [hr]
  exact eraseFirst_perm hm

lemma lookupA_insertA_self {β : Type} (l : List (Cell × β)) (k : Cell)
    (v : β) : lookupA (insertA l k v) k = some v := by
  induction l with
  | nil => simp [insertA, lookupA]
  | cons e rest ih =>
    rw [insertA]
    split
    · simp [lookupA]
    · next hne =>
      rw [lookupA, if_neg hne]
      exact ih

lemma lookupA_insertA_ne {β : Type} (l : List (Cell × β)) (k k2 : Cell)
    (v : β) (hne : k ≠ k2) :
    lookupA (insertA l k v) k2 = lookupA l k2 := by
  induction l with
  | nil => simp [insertA, lookupA, hne]
  | cons e rest ih =>
    obtain ⟨k1, v1⟩ := e
    rw [insertA]
    split
    · next he =>
      subst he
      rw [lookupA, lookupA, if_neg hne, if_neg hne]
    · rw [lookupA, lookupA]
      split
      · rfl
      · exact ih

lemma lookupA_mem {β : Type} {l : List (Cell × β)} {k : Cell} {v : β}
    (h : lookupA l k = some v) : (k, v) ∈ l := by
  induction l with
  | nil => simp [lookupA] at h
  | cons e rest ih =>
    rw [lookupA] at h
    split at h
    · next he =>
      simp only [Option.some.injEq] at h
      subst he; subst h
      simp
    · exact List.mem_cons_of_mem _ (ih h)

lemma lookupA_isSome_iff {β : Type} (l : List (Cell × β)) (k : Cell) :
    (∃ v, lookupA l k = some v) ↔ k ∈ l.map Prod.fst := by
  induction l with
  | nil => simp [lookupA]
  | cons e rest ih =>
    rw [lookupA]
    split
    · next he => simp [he.symm]
    · next he =>
      simp only [List.map_cons, List.mem_cons, ih]
      constructor
      · intro hv; right; exact hv
      · rintro (hv | hv)
        · exact absurd hv.symm he
        · exact hv

lemma insertA_mem {β : Type} {l : List (Cell × β)} {k : Cell} {v : β}
    (hn : (l.map Prod.fst).Nodup) :
    ∀ x ∈ insertA l k v, x = (k, v) ∨ (x ∈ l ∧ x.1 ≠ k) := by
  induction l with
  | nil => simp [insertA]
  | cons e rest ih =>
    obtain ⟨k1, v1⟩ := e
    rw [List.map_cons, List.nodup_cons] at hn
    intro x hx
    rw [insertA] at hx
    split at hx
    · next he =>
      subst he
      rcases List.mem_cons.mp hx with rfl | hx
      · left; rfl
      · right
        refine ⟨List.mem_cons_of_mem _ hx, ?_⟩
        intro hk
        exact hn.1 (List.mem_map.mpr ⟨x, hx, hk⟩)
    · next he =>
      rcases List.mem_cons.mp hx with rfl | hx
      · right
        refine ⟨by simp, ?_⟩
        intro hk
        exact he hk
      · rcases ih hn.2 x hx with h | h
        · left; exact h
        · right; exact ⟨List.mem_cons_of_mem _ h.1, h.2⟩

lemma insertA_keys_nodup {β : Type} {l : List (Cell × β)} {k : Cell}
    {v : β} (hn : (l.map Prod.fst).Nodup) :
    ((insertA l k v).map Prod.fst).Nodup := by
  induction l with
  | nil => simp [insertA]
  | cons e rest ih =>
    obtain ⟨k1, v1⟩ := e
    rw [List.map_cons, List.nodup_cons] at hn
    rw [insertA]
    split
    · next he =>
      subst he
      simpa using hn
    · next he =>
      rw [List.map_cons, List.nodup_cons]
      refine ⟨?_, ih hn.2⟩
      intro hmem
      rw [List.mem_map] at hmem
      obtain ⟨x, hx, hfst⟩ := hmem
      rcases insertA_mem hn.2 x hx with rfl | hin
      · exact he hfst.symm
      · exact hn.1 (hfst ▸ List.mem_map_of_mem Prod.fst hin.1)

lemma insertA_length {β : Type} (l : List (Cell × β)) (k : Cell) (v : β) :
    (insertA l k v).length =
      if k ∈ l.map Prod.fst then l.length else l.length + 1 := by
  induction l with
  | nil => simp [insertA]
  | cons e rest ih =>
    rw [insertA]
    split
    · next he => simp [he.symm]
    · next he =>
      simp only [List.length_cons, ih, List.map_cons, List.mem_cons]
      by_cases hk : k ∈ rest.map Prod.fst
      · rw [if_pos hk, if_pos (Or.inr hk)]
      · rw [if_neg hk, if_neg (by rintro (h | h); exact he h.symm; exact hk h)]

lemma mem_neighbors4 (g : NavGrid) (c nb : Cell) :
    nb ∈ g.neighbors4 c ↔ adjCell c nb ∧ freeCell g nb := by
  rw [NavGrid.neighbors4, List.mem_filter, List.mem_map]
  constructor
  · rintro ⟨⟨d, hd, rfl⟩, hpred⟩
    rw [Bool.and_eq_true, Bool.not_eq_true'] at hpred
    refine ⟨?_, hpred.1, hpred.2⟩
    fin_cases hd
    all_goals simp [adjCell]
  · rintro ⟨hadj, hfree⟩
    constructor
    · rw [adjCell] at hadj
      have hcase : (nb.1 - c.1 = 1 ∧ nb.2 - c.2 = 0) ∨
          (nb.1 - c.1 = -1 ∧ nb.2 - c.2 = 0) ∨
          (nb.1 - c.1 = 0 ∧ nb.2 - c.2 = 1) ∨
          (nb.1 - c.1 = 0 ∧ nb.2 - c.2 = -1) := by omega
      rcases hcase with ⟨h1, h2⟩ | ⟨h1, h2⟩ | ⟨h1, h2⟩ | ⟨h1, h2⟩
      · exact ⟨(1, 0), by simp, by ext <;> simp <;> omega⟩
      · exact ⟨(-1, 0), by simp, by ext <;> simp <;> omega⟩
      · exact ⟨(0, 1), by simp, by ext <;> simp <;> omega⟩
      · exact ⟨(0, -1), by simp, by ext <;> simp <;> omega⟩
    · rw [Bool.and_eq_true, Bool.not_eq_true']
      exact ⟨hfree.1, hfree.2⟩

lemma reachN_self {g : NavGrid} {c : Cell} (h : freeCell g c) :
    ReachN g c c 0 :=
  ⟨[c], ⟨⟨List.chain'_singleton c, by simpa using h⟩, rfl, rfl⟩, rfl⟩

lemma pathFrom_ne_nil {g : NavGrid} {p : List Cell} {s t : Cell}
    (h : PathFrom g p s t) : p ≠ [] := by
  intro he
  rw [he] at h
  exact Option.noConfusion h.2.1

lemma ReachN.extend {g : NavGrid} {s c nb : Cell} {n : ℕ}
    (h : ReachN g s c n) (hadj : adjCell c nb) (hf : freeCell g nb) :
    ReachN g s nb (n + 1) := by
  obtain ⟨p, ⟨⟨hch, hmem⟩, hhd, hlast⟩, hlen⟩ := h
  have hne : p ≠ [] := by
    intro he; rw [he] at hhd; exact Option.noConfusion hhd
  refine ⟨p ++ [nb], ⟨⟨?_, ?_⟩, ?_, ?_⟩, ?_⟩
  · rw [List.chain'_append]
    refine ⟨hch, List.chain'_singleton nb, ?_⟩
    intro x hx y hy
    simp only [List.head?_cons, Option.mem_def, Option.some.injEq] at hy
    rw [hlast] at hx
    simp only [Option.mem_def, Option.some.injEq] at hx
    subst hx; subst hy
    exact hadj
  · intro x hx
    rcases List.mem_append.mp hx with hx | hx
    · exact hmem x hx
    · simp only [List.mem_singleton] at hx
      rw [hx]; exact hf
  · rw [List.head?_append_of_ne_nil _ hne]
    exact hhd
  · rw [List.getLast?_append_of_ne_nil _ (by simp)]
    rfl
  · simp [hlen]

lemma ReachN.free_src {g : NavGrid} {s t : Cell} {n : ℕ}
    (h : ReachN g s t n) : freeCell g s := by
  obtain ⟨p, ⟨⟨_, hmem⟩, hhd, _⟩, _⟩ := h
  exact hmem s (List.mem_of_mem_head? hhd)

lemma ReachN.free_dst {g : NavGrid} {s t : Cell} {n : ℕ}
    (h : ReachN g s t n) : freeCell g t := by
  obtain ⟨p, ⟨⟨_, hmem⟩, _, hlast⟩, _⟩ := h
  exact hmem t (List.mem_of_mem_getLast? hlast)

lemma pathFrom_manhattan {g : NavGrid} :
    ∀ (p : List Cell) (s t : Cell), PathFrom g p s t →
      hManhattan t s + 1 ≤ p.length := by
  intro p
  induction p with
  | nil => intro s t h; exact absurd rfl (pathFrom_ne_nil h)
  | cons x xs ih =>
    intro s t h
    obtain ⟨⟨hch, hmem⟩, hhd, hlast⟩ := h
    simp only [List.head?_cons, Option.some.injEq] at hhd
    subst hhd
    cases xs with
    | nil =>
      simp only [List.getLast?_singleton, Option.some.injEq] at hlast
      subst hlast
      simp [hManhattan]
    | cons y ys =>
      rw [List.chain'_cons] at hch
      have hrec := ih y t ⟨⟨hch.2, fun c hc => hmem c (List.mem_cons_of_mem _ hc)⟩,
        rfl, by rw [← hlast]; exact List.getLast?_cons_cons.symm⟩
      have hstep : hManhattan t x ≤ hManhattan t y + 1 := by
        have := hch.1
        rw [adjCell] at this
        rw [hManhattan, hManhattan]
        omega
      simp only [List.length_cons] at *
      omega

lemma reachN_trans {g : NavGrid} {a b c : Cell} {m k : ℕ}
    (h1 : ReachN g a b m) (h2 : ReachN g b c k) : ReachN g a c (m + k) := by
  obtain ⟨p, ⟨⟨hch1, hmem1⟩, hhd1, hlast1⟩, hlen1⟩ := h1
  obtain ⟨q, ⟨⟨hch2, hmem2⟩, hhd2, hlast2⟩, hlen2⟩ := h2
  have hpne : p ≠ [] := by
    intro he; rw [he] at hhd1; exact Option.noConfusion hhd1
  cases q with
  | nil => exact absurd hhd2 (by simp)
  | cons qh qt =>
    simp only [List.head?_cons, Option.some.injEq] at hhd2
    subst hhd2
    cases qt with
    | nil =>
      simp only [List.getLast?_singleton, Option.some.injEq] at hlast2
      subst hlast2
      simp only [List.length_singleton] at hlen2
      have : k = 0 := by omega
      subst this
      exact ⟨p, ⟨⟨hch1, hmem1⟩, hhd1, hlast1⟩, by omega⟩
    | cons y yt =>
      refine ⟨p ++ (y :: yt), ⟨⟨?_, ?_⟩, ?_, ?_⟩, ?_⟩
      · rw [List.chain'_append]
        refine ⟨hch1, (List.chain'_cons.mp hch2).2, ?_⟩
        intro u hu v hv
        simp only [List.head?_cons, Option.mem_def, Option.some.injEq] at hv
        rw [hlast1] at hu
        simp only [Option.mem_def, Option.some.injEq] at hu
        subst hu; subst hv
        exact (List.chain'_cons.mp hch2).1
      · intro u hu
        rcases List.mem_append.mp hu with hu | hu
        · exact hmem1 u hu
        · exact hmem2 u (List.mem_cons_of_mem _ hu)
      · rw [List.head?_append_of_ne_nil _ hpne]
        exact hhd1
      · rw [List.getLast?_append_of_ne_nil _ (by simp)]
        rw [← hlast2]
        exact List.getLast?_cons_cons.symm
      · simp only [List.length_append, List.length_cons] at *
        omega

lemma exists_min_reach {g : NavGrid} {s t : Cell}
    (h : ∃ n, ReachN g s t n) :
    ∃ d, ReachN g s t d ∧ ∀ m, ReachN g s t m → d ≤ m := by
  classical
  exact ⟨Nat.find h, Nat.find_spec h, fun m hm => Nat.find_le hm⟩

lemma getLast?_drop_of_lt {α : Type} :
    ∀ (p : List α) (i : ℕ), i < p.length →
      (p.drop i).getLast? = p.getLast? := by
  intro p
  induction p with
  | nil => intro i hi; simp at hi
  | cons x xs ih =>
    intro i hi
    cases i with
    | zero => rfl
    | succ j =>
      simp only [List.length_cons] at hi
      rw [List.drop_succ_cons, ih j (by omega)]
      cases xs with
      | nil => simp at hi
      | cons y ys => exact List.getLast?_cons_cons.symm

lemma chain'_drop {α : Type} {R : α → α → Prop} :
    ∀ (p : List α) (i : ℕ), List.Chain' R p → List.Chain' R (p.drop i) := by
  intro p
  induction p with
  | nil => intro i _; simp
  | cons x xs ih =>
    intro i hch
    cases i with
    | zero => exact hch
    | succ j =>
      rw [List.drop_succ_cons]
      exact ih j (List.Chain'.tail hch)

lemma pathFrom_suffix {g : NavGrid} {p : List Cell} {s t a : Cell} {i : ℕ}
    (h : PathFrom g p s t) (ha : p.get? i = some a) :
    ReachN g a t (p.length - 1 - i) := by
  obtain ⟨⟨hch, hmem⟩, hhd, hlast⟩ := h
  have hi : i < p.length := by
    by_contra hcon
    rw [List.get?_eq_none.mpr (by omega)] at ha
    exact Option.noConfusion ha
  refine ⟨p.drop i, ⟨⟨chain'_drop p i hch, ?_⟩, ?_, ?_⟩, ?_⟩
  · intro c hc
    exact hmem c (List.mem_of_mem_drop hc)
  · rw [List.head?_drop]
    rw [← ha]
    rw [List.get?_eq_getElem?]
  · rw [getLast?_drop_of_lt p i hi]
    exact hlast
  · rw [List.length_drop]
    omega

lemma shortest_prefix_min {g : NavGrid} {p : List Cell} {s t a : Cell}
    {i : ℕ} (hpath : PathFrom g p s t)
    (hmin : ∀ m, ReachN g s t m → p.length ≤ m + 1)
    (ha : p.get? i = some a) :
    ∀ m, ReachN g s a m → i ≤ m := by
  intro m hm
  have hsuf := pathFrom_suffix hpath ha
  have htot := reachN_trans hm hsuf
  have := hmin _ htot
  have hi : i < p.length := by
    by_contra hcon
    rw [List.get?_eq_none.mpr (by omega)] at ha
    exact Option.noConfusion ha
  omega

lemma mem_eraseFirst_of_ne {h : List AEntry} {m x : AEntry}
    (hx : x ∈ h) (hne : x ≠ m) : x ∈ eraseFirst h m := by
  induction h with
  | nil => simp at hx
  | cons y ys ih =>
    rw [eraseFirst]
    split
    · next he =>
      rcases List.mem_cons.mp hx with rfl | hx2
      · exact absurd he hne
      · exact hx2
    · rcases List.mem_cons.mp hx with rfl | hx2
      · simp
      · exact List.mem_cons_of_mem _ (ih hx2)

lemma length_eraseFirst_of_mem {h : List AEntry} {m : AEntry}
    (hm : m ∈ h) : h.length = (eraseFirst h m).length + 1 :=
  (eraseFirst_perm hm).length_eq

lemma mem_of_mem_eraseFirst {h : List AEntry} {m x : AEntry}
    (hx : x ∈ eraseFirst h m) : x ∈ h := by
  induction h with
  | nil => simp [eraseFirst] at hx
  | cons y ys ih =>
    rw [eraseFirst] at hx
    split at hx
    · exact List.mem_cons_of_mem _ hx
    · rcases List.mem_cons.mp hx with rfl | hx2
      · simp
      · exact List.mem_cons_of_mem _ (ih hx2)

lemma msum_insertA_some {l : List (Cell × ℕ)} {k : Cell} {x : ℕ}
    (hl : lookupA l k = some x) (v : ℕ) :
    msum (insertA l k v) + x = msum l + v := by
  induction l with
  | nil => simp [lookupA] at hl
  | cons e rest ih =>
    obtain ⟨k1, v1⟩ := e
    rw [lookupA] at hl
    rw [insertA]
    split
    · next he =>
      rw [if_pos he] at hl
      simp only [Option.some.injEq] at hl
      subst hl
      simp [msum]
      omega
    · next he =>
      rw [if_neg he] at hl
      have := ih hl
      simp only [msum, List.map_cons, List.sum_cons] at *
      omega

lemma msum_insertA_none {l : List (Cell × ℕ)} {k : Cell}
    (hl : lookupA l k = none) (v : ℕ) :
    msum (insertA l k v) = msum l + v := by
  induction l with
  | nil => simp [insertA, msum]
  | cons e rest ih =>
    obtain ⟨k1, v1⟩ := e
    rw [lookupA] at hl
    rw [insertA]
    split
    · next he => rw [if_pos he] at hl; exact Option.noConfusion hl
    · next he =>
      rw [if_neg he] at hl
      have := ih hl
      simp only [msum, List.map_cons, List.sum_cons] at *
      omega

lemma lookupA_none_iff {β : Type} (l : List (Cell × β)) (k : Cell) :
    lookupA l k = none ↔ k ∉ l.map Prod.fst := by
  rcases he : lookupA l k with _ | v
  · simp only [true_iff]
    intro hmem
    obtain ⟨v, hv⟩ := (lookupA_isSome_iff l k).mpr hmem
    rw [he] at hv
    exact Option.noConfusion hv
  · simp only [reduceCtorEq, false_iff, not_not]
    exact (lookupA_isSome_iff l k).mp ⟨v, he⟩

lemma keys_length_le (g : NavGrid) (l : List Cell) (hn : l.Nodup)
    (hb : ∀ c ∈ l, g.inBounds c = true) :
    l.length ≤ g.width * g.height := by
  classical
  set f : Cell → ℕ := fun c => c.2.toNat * g.width + c.1.toNat with hf
  have hinj : ∀ x ∈ l, ∀ y ∈ l, f x = f y → x = y := by
    intro x hx y hy hxy
    have hbx := hb x hx
    have hby := hb y hy
    rw [NavGrid.inBounds, decide_eq_true_eq] at hbx hby
    rw [hf] at hxy
    simp only at hxy
    have hx1 : x.1.toNat < g.width := by omega
    have hy1 : y.1.toNat < g.width := by omega
    have hw : 0 < g.width := by omega
    have hmodx : (x.2.toNat * g.width + x.1.toNat) % g.width = x.1.toNat := by
      rw [mul_comm x.2.toNat g.width, Nat.mul_add_mod]
      exact Nat.mod_eq_of_lt hx1
    have hmody : (y.2.toNat * g.width + y.1.toNat) % g.width = y.1.toNat := by
      rw [mul_comm y.2.toNat g.width, Nat.mul_add_mod]
      exact Nat.mod_eq_of_lt hy1
    have heqx : x.1.toNat = y.1.toNat := by
      rw [← hmodx, ← hmody, hxy]
    have heqy : x.2.toNat = y.2.toNat := by
      have := hxy
      rw [heqx] at this
      have h2 : x.2.toNat * g.width = y.2.toNat * g.width := by omega
      exact Nat.eq_of_mul_eq_mul_right hw h2
    have : x.1 = y.1 ∧ x.2 = y.2 := by omega
    exact Prod.ext this.1 this.2
  have hmapnd : (l.map f).Nodup := hn.map_on hinj
  have hsub : (l.map f).toFinset ⊆ Finset.range (g.width * g.height) := by
    intro x hx
    rw [List.mem_toFinset, List.mem_map] at hx
    obtain ⟨c, hc, rfl⟩ := hx
    have hbc := hb c hc
    rw [NavGrid.inBounds, decide_eq_true_eq] at hbc
    rw [Finset.mem_range, hf]
    simp only
    have h1 : c.1.toNat < g.width := by omega
    have h2 : c.2.toNat < g.height := by omega
    have hstep : (c.2.toNat + 1) * g.width ≤ g.height * g.width :=
      Nat.mul_le_mul_right _ h2
    rw [add_one_mul] at hstep
    rw [mul_comm g.width g.height]
    omega
  calc l.length = (l.map f).length := (List.length_map l f).symm
    _ = (l.map f).toFinset.card := (List.toFinset_card_of_nodup hmapnd).symm
    _ ≤ (Finset.range (g.width * g.height)).card := Finset.card_le_card hsub
    _ = g.width * g.height := Finset.card_range _

lemma gs_length_le {g : NavGrid} {start goal : Cell} {σ : AState}
    (hinv : AInv g start goal σ) :
    σ.gs.length ≤ g.width * g.height := by
  have := keys_length_le g (σ.gs.map Prod.fst) hinv.hnodup ?_
  · simpa using this
  · intro c hc
    rw [List.mem_map] at hc
    obtain ⟨cv, hcv, rfl⟩ := hc
    exact ((hinv.hreach cv hcv).free_dst).1

lemma reachN_manhattan {g : NavGrid} {s t : Cell} {n : ℕ}
    (h : ReachN g s t n) : hManhattan t s ≤ n := by
  obtain ⟨p, hp, hlen⟩ := h
  have := pathFrom_manhattan p s t hp
  omega

lemma adjCell_ne {a b : Cell} (h : adjCell a b) : b ≠ a := by
  rw [adjCell] at h
  intro he
  subst he
  simp at h

lemma lookupA_fun {β : Type} {l : List (Cell × β)} {k : Cell} {v w : β}
    (h1 : lookupA l k = some v) (h2 : lookupA l k = some w) : v = w := by
  rw [h1] at h2
  exact (Option.some.injEq _ _).mp h2

lemma relaxCell_spec {g : NavGrid} {start goal cur : Cell} {gv : ℕ}
    {σ2 : AState} {nb : Cell}
    (hinv : AInv g start goal σ2)
    (hcur : lookupA σ2.gs cur = some gv)
    (hreach : ReachN g start cur gv)
    (hadj : adjCell cur nb) (hfree : freeCell g nb) :
    AInv g start goal (relaxCell g goal cur gv σ2 nb) ∧
    lookupA (relaxCell g goal cur gv σ2 nb).gs cur = some gv ∧
    (∀ x v2, lookupA (relaxCell g goal cur gv σ2 nb).gs x = some v2 →
      lookupA σ2.gs x = some v2 ∨
        (v2 + hManhattan goal x, v2, x) ∈ (relaxCell g goal cur gv σ2 nb).heap) ∧
    (∀ x v, lookupA σ2.gs x = some v →
      ∃ v2, v2 ≤ v ∧ lookupA (relaxCell g goal cur gv σ2 nb).gs x = some v2) ∧
    (∀ e ∈ σ2.heap, e ∈ (relaxCell g goal cur gv σ2 nb).heap) ∧
    (5 * gsPot g (relaxCell g goal cur gv σ2 nb).gs
        + (relaxCell g goal cur gv σ2 nb).heap.length ≤
      5 * gsPot g σ2.gs + σ2.heap.length) ∧
    (∃ v2, v2 ≤ gv + 1 ∧
      lookupA (relaxCell g goal cur gv σ2 nb).gs nb = some v2) := by
  have hnbcur : nb ≠ cur := adjCell_ne hadj
  rw [relaxCell]
  rcases hold : lookupA σ2.gs nb with _ | x
  all_goals simp only [hold]
  case _ =>
    -- nb unbound: the relaxation fires, a fresh binding is created
    simp only [if_pos]
    have hnbstart : nb ≠ start := by
      intro he
      rw [he, hinv.hstart] at hold
      exact Option.noConfusion hold
    have hreachnb : ReachN g start nb (gv + 1) := hreach.extend hadj hfree
    have hlen : (insertA σ2.gs nb (gv + 1)).length = σ2.gs.length + 1 := by
      rw [insertA_length, if_neg ((lookupA_none_iff _ _).mp hold)]
    have hmemgs : ∀ cv ∈ insertA σ2.gs nb (gv + 1),
        cv = (nb, gv + 1) ∨ (cv ∈ σ2.gs ∧ cv.1 ≠ nb) :=
      insertA_mem hinv.hnodup
    have hgvlt : gv < σ2.gs.length := hinv.hbound _ (lookupA_mem hcur)
    have hinv2 : AInv g start goal
        ⟨(gv + 1 + hManhattan goal nb, gv + 1, nb) :: σ2.heap,
         insertA σ2.gs nb (gv + 1), insertA σ2.came nb cur⟩ := by
      refine ⟨insertA_keys_nodup hinv.hnodup, ?_, ?_, ?_, ?_, ?_, ?_⟩
      · intro cv hcv
        rcases hmemgs cv hcv with rfl | ⟨h1, _⟩
        · exact hreachnb
        · exact hinv.hreach cv h1
      · intro cv hcv
        rw [hlen]
        rcases hmemgs cv hcv with rfl | ⟨h1, _⟩
        · simpa using hgvlt
        · have := hinv.hbound cv h1
          omega
      · rw [lookupA_insertA_ne _ _ _ _ hnbstart]
        exact hinv.hstart
      · intro e he
        rcases List.mem_cons.mp he with rfl | he2
        · exact ⟨rfl, ⟨gv + 1, lookupA_insertA_self _ _ _, le_refl _⟩, hreachnb⟩
        · obtain ⟨hf, ⟨w, hw, hwle⟩, hr⟩ := hinv.hheap e he2
          refine ⟨hf, ?_, hr⟩
          by_cases hcell : e.2.2 = nb
          · rw [hcell, hold] at hw
            exact Option.noConfusion hw
          · exact ⟨w, by rw [lookupA_insertA_ne _ _ _ _ (fun h => hcell h.symm)]; exact hw, hwle⟩
      · intro c pr hpr
        by_cases hc : c = nb
        · subst hc
          rw [lookupA_insertA_self] at hpr
          obtain rfl := (Option.some.injEq _ _).mp hpr.symm
          refine ⟨hadj, gv + 1, gv, lookupA_insertA_self _ _ _, ?_, by omega⟩
          rw [lookupA_insertA_ne _ _ _ _ hnbcur]
          exact hcur
        · rw [lookupA_insertA_ne _ _ _ _ (fun h => hc h.symm)] at hpr
          obtain ⟨ha2, v, w, hv, hw, hlt⟩ := hinv.hcame c pr hpr
          by_cases hp : pr = nb
          · rw [hp, hold] at hw
            exact Option.noConfusion hw
          · refine ⟨ha2, v, w, ?_, ?_, hlt⟩
            · rw [lookupA_insertA_ne _ _ _ _ (fun h => hc h.symm)]
              exact hv
            · rw [lookupA_insertA_ne _ _ _ _ (fun h => hp h.symm)]
              exact hw
      · intro cv hcv
        rcases hmemgs cv hcv with rfl | ⟨h1, h2⟩
        · right
          exact ⟨cur, lookupA_insertA_self _ _ _⟩
        · rcases hinv.hcover cv h1 with h3 | ⟨pr, hpr⟩
          · left; exact h3
          · right
            refine ⟨pr, ?_⟩
            rw [lookupA_insertA_ne _ _ _ _ (fun h => h2 h.symm)]
            exact hpr
    refine ⟨hinv2, ?_, ?_, ?_, ?_, ?_, ?_⟩
    · rw [lookupA_insertA_ne _ _ _ _ hnbcur]
      exact hcur
    · intro x v2 hx
      by_cases hxnb : x = nb
      · subst hxnb
        rw [lookupA_insertA_self] at hx
        obtain rfl := (Option.some.injEq _ _).mp hx.symm
        right
        simp
      · left
        rw [lookupA_insertA_ne _ _ _ _ (fun h => hxnb h.symm)] at hx
        exact hx
    · intro x v hx
      by_cases hxnb : x = nb
      · subst hxnb
        rw [hold] at hx
        exact Option.noConfusion hx
      · exact ⟨v, le_refl _, by
          rw [lookupA_insertA_ne _ _ _ _ (fun h => hxnb h.symm)]; exact hx⟩
    · intro e he
      exact List.mem_cons_of_mem _ he
    · have hK : σ2.gs.length + 1 ≤ g.width * g.height := by
        have := gs_length_le hinv2
        simp only at this
        rw [hlen] at this
        exact this
      rw [gsPot, gsPot, hlen, msum_insertA_none hold]
      simp only [List.length_cons]
      have ha : g.width * g.height - σ2.gs.length =
          (g.width * g.height - (σ2.gs.length + 1)) + 1 := by omega
      have hmul : (g.width * g.height + 1) * (g.width * g.height - σ2.gs.length)
          = (g.width * g.height + 1) * (g.width * g.height - (σ2.gs.length + 1))
            + (g.width * g.height + 1) := by
        rw [ha]
        ring
      have hng : gv + 1 ≤ g.width * g.height := by omega
      omega
    · exact ⟨gv + 1, le_refl _, lookupA_insertA_self _ _ _⟩
  case _ =>
    -- nb already bound to x: relax only on strict improvement
    by_cases hbet : gv + 1 < x
    · rw [if_pos (by simpa using hbet)]
      have hnbstart : nb ≠ start := by
        intro he
        rw [he, hinv.hstart] at hold
        obtain rfl := (Option.some.injEq _ _).mp hold.symm
        omega
      have hreachnb : ReachN g start nb (gv + 1) := hreach.extend hadj hfree
      have hlen : (insertA σ2.gs nb (gv + 1)).length = σ2.gs.length := by
        rw [insertA_length, if_pos ((lookupA_isSome_iff _ _).mp ⟨x, hold⟩)]
      have hmemgs : ∀ cv ∈ insertA σ2.gs nb (gv + 1),
          cv = (nb, gv + 1) ∨ (cv ∈ σ2.gs ∧ cv.1 ≠ nb) :=
        insertA_mem hinv.hnodup
      have hxlt : x < σ2.gs.length := hinv.hbound _ (lookupA_mem hold)
      have hinv2 : AInv g start goal
          ⟨(gv + 1 + hManhattan goal nb, gv + 1, nb) :: σ2.heap,
           insertA σ2.gs nb (gv + 1), insertA σ2.came nb cur⟩ := by
        refine ⟨insertA_keys_nodup hinv.hnodup, ?_, ?_, ?_, ?_, ?_, ?_⟩
        · intro cv hcv
          rcases hmemgs cv hcv with rfl | ⟨h1, _⟩
          · exact hreachnb
          · exact hinv.hreach cv h1
        · intro cv hcv
          rw [hlen]
          rcases hmemgs cv hcv with rfl | ⟨h1, _⟩
          · simp only
            omega
          · exact hinv.hbound cv h1
        · rw [lookupA_insertA_ne _ _ _ _ hnbstart]
          exact hinv.hstart
        · intro e he
          rcases List.mem_cons.mp he with rfl | he2
          · exact ⟨rfl, ⟨gv + 1, lookupA_insertA_self _ _ _, le_refl _⟩, hreachnb⟩
          · obtain ⟨hf, ⟨w, hw, hwle⟩, hr⟩ := hinv.hheap e he2
            refine ⟨hf, ?_, hr⟩
            by_cases hcell : e.2.2 = nb
            · subst hcell
              obtain rfl := lookupA_fun hw hold
              exact ⟨gv + 1, lookupA_insertA_self _ _ _, by omega⟩
            · exact ⟨w, by
                rw [lookupA_insertA_ne _ _ _ _ (fun h => hcell h.symm)]
                exact hw, hwle⟩
        · intro c pr hpr
          by_cases hc : c = nb
          · subst hc
            rw [lookupA_insertA_self] at hpr
            obtain rfl := (Option.some.injEq _ _).mp hpr.symm
            refine ⟨hadj, gv + 1, gv, lookupA_insertA_self _ _ _, ?_, by omega⟩
            rw [lookupA_insertA_ne _ _ _ _ hnbcur]
            exact hcur
          · rw [lookupA_insertA_ne _ _ _ _ (fun h => hc h.symm)] at hpr
            obtain ⟨ha2, v, w, hv, hw, hlt⟩ := hinv.hcame c pr hpr
            by_cases hp : pr = nb
            · subst hp
              obtain rfl := lookupA_fun hw hold
              refine ⟨ha2, v, gv + 1, ?_, lookupA_insertA_self _ _ _, by omega⟩
              rw [lookupA_insertA_ne _ _ _ _ (fun h => hc h.symm)]
              exact hv
            · refine ⟨ha2, v, w, ?_, ?_, hlt⟩
              · rw [lookupA_insertA_ne _ _ _ _ (fun h => hc h.symm)]
                exact hv
              · rw [lookupA_insertA_ne _ _ _ _ (fun h => hp h.symm)]
                exact hw
        · intro cv hcv
          rcases hmemgs cv hcv with rfl | ⟨h1, h2⟩
          · right
            exact ⟨cur, lookupA_insertA_self _ _ _⟩
          · rcases hinv.hcover cv h1 with h3 | ⟨pr, hpr⟩
            · left; exact h3
            · right
              refine ⟨pr, ?_⟩
              rw [lookupA_insertA_ne _ _ _ _ (fun h => h2 h.symm)]
              exact hpr
      refine ⟨hinv2, ?_, ?_, ?_, ?_, ?_, ?_⟩
      · rw [lookupA_insertA_ne _ _ _ _ hnbcur]
        exact hcur
      · intro x2 v2 hx
        by_cases hxnb : x2 = nb
        · subst hxnb
          rw [lookupA_insertA_self] at hx
          obtain rfl := (Option.some.injEq _ _).mp hx.symm
          right
          simp
        · left
          rw [lookupA_insertA_ne _ _ _ _ (fun h => hxnb h.symm)] at hx
          exact hx
      · intro x2 v hx
        by_cases hxnb : x2 = nb
        · subst hxnb
          obtain rfl := lookupA_fun hx hold
          exact ⟨gv + 1, by omega, lookupA_insertA_self _ _ _⟩
        · exact ⟨v, le_refl _, by
            rw [lookupA_insertA_ne _ _ _ _ (fun h => hxnb h.symm)]; exact hx⟩
      · intro e he
        exact List.mem_cons_of_mem _ he
      · have hms := msum_insertA_some hold (gv + 1)
        rw [gsPot, gsPot, hlen]
        simp only [List.length_cons]
        omega
      · exact ⟨gv + 1, le_refl _, lookupA_insertA_self _ _ _⟩
    · rw [if_neg (by simpa using hbet)]
      refine ⟨hinv, hcur, ?_, ?_, ?_, ?_, ?_⟩
      · intro x2 v2 hx
        left; exact hx
      · intro x2 v hx
        exact ⟨v, le_refl _, hx⟩
      · intro e he
        exact he
      · exact le_refl _
      · exact ⟨x, by omega, hold⟩

lemma foldRelax_spec {g : NavGrid} {start goal cur : Cell} {gv : ℕ} :
    ∀ (nbs : List Cell) (σ2 : AState),
    AInv g start goal σ2 →
    lookupA σ2.gs cur = some gv →
    ReachN g start cur gv →
    (∀ nb ∈ nbs, adjCell cur nb ∧ freeCell g nb) →
    AInv g start goal (nbs.foldl (relaxCell g goal cur gv) σ2) ∧
    (∀ x v2, lookupA (nbs.foldl (relaxCell g goal cur gv) σ2).gs x = some v2 →
      lookupA σ2.gs x = some v2 ∨
        (v2 + hManhattan goal x, v2, x) ∈
          (nbs.foldl (relaxCell g goal cur gv) σ2).heap) ∧
    (∀ x v, lookupA σ2.gs x = some v →
      ∃ v2, v2 ≤ v ∧
        lookupA (nbs.foldl (relaxCell g goal cur gv) σ2).gs x = some v2) ∧
    (∀ e ∈ σ2.heap, e ∈ (nbs.foldl (relaxCell g goal cur gv) σ2).heap) ∧
    (5 * gsPot g (nbs.foldl (relaxCell g goal cur gv) σ2).gs
        + (nbs.foldl (relaxCell g goal cur gv) σ2).heap.length ≤
      5 * gsPot g σ2.gs + σ2.heap.length) ∧
    (∀ nb ∈ nbs, ∃ v2, v2 ≤ gv + 1 ∧
      lookupA (nbs.foldl (relaxCell g goal cur gv) σ2).gs nb = some v2) := by
  intro nbs
  induction nbs with
  | nil =>
    intro σ2 hinv hcur hreach hnbs
    refine ⟨hinv, ?_, ?_, ?_, le_refl _, ?_⟩
    · intro x v2 hx; left; exact hx
    · intro x v hx; exact ⟨v, le_refl _, hx⟩
    · intro e he; exact he
    · intro nb hnb; simp at hnb
  | cons nb rest ih =>
    intro σ2 hinv hcur hreach hnbs
    have hnb := hnbs nb (by simp)
    obtain ⟨rinv, rcur, rB, rC, rD, rE, rF⟩ :=
      relaxCell_spec hinv hcur hreach hnb.1 hnb.2
    have hrest : ∀ x ∈ rest, adjCell cur x ∧ freeCell g x := by
      intro x hx
      exact hnbs x (List.mem_cons_of_mem _ hx)
    obtain ⟨iinv, iB, iC, iD, iE, iF⟩ :=
      ih (relaxCell g goal cur gv σ2 nb) rinv rcur hreach hrest
    rw [List.foldl_cons]
    refine ⟨iinv, ?_, ?_, ?_, ?_, ?_⟩
    · intro x v2 hx
      rcases iB x v2 hx with h | h
      · rcases rB x v2 h with h2 | h2
        · left; exact h2
        · right; exact iD _ h2
      · right; exact h
    · intro x v hx
      obtain ⟨v2, hv2, hl2⟩ := rC x v hx
      obtain ⟨v3, hv3, hl3⟩ := iC x v2 hl2
      exact ⟨v3, le_trans hv3 hv2, hl3⟩
    · intro e he
      exact iD e (rD e he)
    · exact le_trans iE rE
    · intro x hx
      rcases List.mem_cons.mp hx with rfl | hx2
      · obtain ⟨v2, hv2, hl2⟩ := rF
        obtain ⟨v3, hv3, hl3⟩ := iC x v2 hl2
        exact ⟨v3, le_trans hv3 hv2, hl3⟩
      · exact iF x hx2

lemma astarStep_inr_cases {g : NavGrid} {goal : Cell} {σ σ2 : AState}
    (h : astarStep g goal σ = .inr σ2) :
    ∃ e rest, popMin σ.heap = some (e, rest) ∧ e.2.2 ≠ goal ∧
      ((∃ x, lookupA σ.gs e.2.2 = some x ∧ x < e.2.1 ∧
          σ2 = ⟨rest, σ.gs, σ.came⟩) ∨
       ((∀ x, lookupA σ.gs e.2.2 = some x → e.2.1 ≤ x) ∧
        σ2 = (g.neighbors4 e.2.2).foldl (relaxCell g goal e.2.2 e.2.1)
          ⟨rest, σ.gs, σ.came⟩)) := by
  rw [astarStep] at h
  rcases hpop : popMin σ.heap with _ | er
  · rw [hpop] at h
    exact Sum.noConfusion h
  obtain ⟨e, rest⟩ := er
  rw [hpop] at h
  simp only at h
  split at h
  · exact Sum.noConfusion h
  next hgoal =>
  refine ⟨e, rest, rfl, hgoal, ?_⟩
  split at h
  · next hstale =>
    left
    rcases hl : lookupA σ.gs e.2.2 with _ | x
    · rw [hl] at hstale
      simp at hstale
    · rw [hl] at hstale
      simp only [decide_eq_true_eq] at hstale
      exact ⟨x, rfl, hstale, (Sum.inr.injEq _ _).mp h.symm⟩
  · next hstale =>
    right
    constructor
    · intro x hx
      rw [hx] at hstale
      simp only [decide_eq_true_eq] at hstale
      omega
    · exact (Sum.inr.injEq _ _).mp h.symm

lemma ainv_after_pop {g : NavGrid} {start goal : Cell} {σ : AState}
    {e : AEntry} {rest : List AEntry} (hinv : AInv g start goal σ)
    (hpop : popMin σ.heap = some (e, rest)) :
    AInv g start goal ⟨rest, σ.gs, σ.came⟩ := by
  obtain ⟨hm, hr, _⟩ := popMin_spec hpop
  refine ⟨hinv.hnodup, hinv.hreach, hinv.hbound, hinv.hstart, ?_,
    hinv.hcame, hinv.hcover⟩
  intro e2 he2
  refine hinv.hheap e2 ?_
  rw [hr] at he2
  exact mem_of_mem_eraseFirst he2

lemma astarStep_inr_spec {g : NavGrid} {start goal : Cell} {σ σ2 : AState}
    (hinv : AInv g start goal σ)
    (h : astarStep g goal σ = .inr σ2) :
    AInv g start goal σ2 ∧ aMeasure g σ2 < aMeasure g σ ∧
    (∀ x v2, lookupA σ2.gs x = some v2 →
      lookupA σ.gs x = some v2 ∨
        (v2 + hManhattan goal x, v2, x) ∈ σ2.heap) ∧
    (∀ x v, lookupA σ.gs x = some v →
      ∃ v2, v2 ≤ v ∧ lookupA σ2.gs x = some v2) := by
  obtain ⟨e, rest, hpop, hgoal, hcase⟩ := astarStep_inr_cases h
  obtain ⟨hm, hr, hmin⟩ := popMin_spec hpop
  have hlen : σ.heap.length = rest.length + 1 := by
    rw [hr]
    exact length_eraseFirst_of_mem hm
  have hinv0 : AInv g start goal ⟨rest, σ.gs, σ.came⟩ :=
    ainv_after_pop hinv hpop
  rcases hcase with ⟨x, hx, hlt, rfl⟩ | ⟨hnst, rfl⟩
  · refine ⟨hinv0, ?_, ?_, ?_⟩
    · rw [aMeasure, aMeasure]
      simp only
      omega
    · intro x2 v2 hx2
      left; exact hx2
    · intro x2 v hx2
      exact ⟨v, le_refl _, hx2⟩
  · obtain ⟨hf, ⟨w, hw, hwle⟩, hre⟩ := hinv.hheap e hm
    have hwgv : w = e.2.1 := le_antisymm hwle (hnst w hw)
    subst hwgv
    have hnbs : ∀ nb ∈ g.neighbors4 e.2.2, adjCell e.2.2 nb ∧ freeCell g nb := by
      intro nb hnb
      exact (mem_neighbors4 g e.2.2 nb).mp hnb
    obtain ⟨finv, fB, fC, fD, fE, fF⟩ :=
      foldRelax_spec (g.neighbors4 e.2.2) ⟨rest, σ.gs, σ.came⟩
        hinv0 hw hre hnbs
    refine ⟨finv, ?_, fB, fC⟩
    calc aMeasure g ((g.neighbors4 e.2.2).foldl
          (relaxCell g goal e.2.2 e.2.1) ⟨rest, σ.gs, σ.came⟩)
        ≤ 5 * gsPot g σ.gs + rest.length := fE
      _ < aMeasure g σ := by
          rw [aMeasure]
          omega

lemma get?_some_lt {α : Type} {p : List α} {j : ℕ} {b : α}
    (h : p.get? j = some b) : j < p.length := by
  by_contra hcon
  rw [List.get?_eq_none.mpr (by omega)] at h
  exact Option.noConfusion h

lemma chain'_get?_adj {p : List Cell} (hch : List.Chain' adjCell p)
    {j : ℕ} {b c : Cell} (hb : p.get? j = some b)
    (hc : p.get? (j + 1) = some c) : adjCell b c := by
  have hlt : j + 1 < p.length := get?_some_lt hc
  have h1 := List.chain'_iff_get.mp hch j (by omega)
  have hb2 := List.get?_eq_get (show j < p.length by omega)
  have hc2 := List.get?_eq_get hlt
  rw [hb2] at hb
  rw [hc2] at hc
  obtain rfl := (Option.some.injEq _ _).mp hb.symm
  obtain rfl := (Option.some.injEq _ _).mp hc.symm
  exact h1

lemma sp_preserve {g : NavGrid} {start goal : Cell} {σ σ2 : AState}
    {p : List Cell}
    (hinv : AInv g start goal σ)
    (hpath : PathFrom g p start goal)
    (hshort : ∀ m, ReachN g start goal m → p.length ≤ m + 1)
    (hsp : SPInv goal σ p)
    (h : astarStep g goal σ = .inr σ2) :
    SPInv goal σ2 p := by
  classical
  obtain ⟨i, a, hgeti, hgsa, hheapa, hmax⟩ := hsp
  obtain ⟨e, rest, hpop, hgoal, hcase⟩ := astarStep_inr_cases h
  obtain ⟨hm, hr, hmin⟩ := popMin_spec hpop
  rcases hcase with ⟨x, hx, hlt, rfl⟩ | ⟨hnst, rfl⟩
  · -- stale skip: tables unchanged, the witness entry survives the pop
    have hne : (i + hManhattan goal a, i, a) ≠ e := by
      intro he
      have h1 : e.2.2 = a := by rw [← he]
      have h2 : e.2.1 = i := by rw [← he]
      rw [h1, hgsa] at hx
      obtain rfl := (Option.some.injEq _ _).mp hx.symm
      omega
    refine ⟨i, a, hgeti, hgsa, ?_, hmax⟩
    rw [hr] at *
    exact mem_eraseFirst_of_ne hheapa hne
  · -- relaxation of the popped cell
    obtain ⟨hf, ⟨w, hw, hwle⟩, hre⟩ := hinv.hheap e hm
    have hwgv : w = e.2.1 := le_antisymm hwle (hnst w hw)
    subst hwgv
    have hinv0 : AInv g start goal ⟨rest, σ.gs, σ.came⟩ :=
      ainv_after_pop hinv hpop
    have hnbs : ∀ nb ∈ g.neighbors4 e.2.2,
        adjCell e.2.2 nb ∧ freeCell g nb := by
      intro nb hnb
      exact (mem_neighbors4 g e.2.2 nb).mp hnb
    obtain ⟨finv, fB, fC, fD, fE, fF⟩ :=
      foldRelax_spec (g.neighbors4 e.2.2) ⟨rest, σ.gs, σ.came⟩
        hinv0 hw hre hnbs
    set σ3 := (g.neighbors4 e.2.2).foldl (relaxCell g goal e.2.2 e.2.1)
      ⟨rest, σ.gs, σ.came⟩ with hσ3
    -- settled cells of p keep their exact values
    have hset : ∀ j b, p.get? j = some b → lookupA σ.gs b = some j →
        lookupA σ3.gs b = some j := by
      intro j b hget hgs
      obtain ⟨v2, hv2le, hv2⟩ := fC b j hgs
      have hge : j ≤ v2 :=
        shortest_prefix_min hpath hshort hget v2
          (finv.hreach (b, v2) (lookupA_mem hv2))
      have : v2 = j := by omega
      rw [← this]
      exact hv2
    set P : ℕ → Prop :=
      fun j => ∃ b, p.get? j = some b ∧ lookupA σ3.gs b = some j with hP
    have hPi : P i := ⟨a, hgeti, hset i a hgeti hgsa⟩
    have hile : i ≤ p.length := le_of_lt (get?_some_lt hgeti)
    have hPspec : P (Nat.findGreatest P p.length) :=
      Nat.findGreatest_spec hile hPi
    have hii2 : i ≤ Nat.findGreatest P p.length :=
      Nat.le_findGreatest hile hPi
    have hmax2 : ∀ j b, p.get? j = some b → lookupA σ3.gs b = some j →
        j ≤ Nat.findGreatest P p.length := by
      intro j b hg hl
      exact Nat.le_findGreatest (le_of_lt (get?_some_lt hg)) ⟨b, hg, hl⟩
    obtain ⟨b2, hgetb2, hgsb2⟩ := hPspec
    refine ⟨Nat.findGreatest P p.length, b2, hgetb2, hgsb2, ?_, hmax2⟩
    rcases fB b2 _ hgsb2 with hold | hnew
    · -- b2 was already settled before this step
      have hi2i : Nat.findGreatest P p.length = i :=
        le_antisymm (hmax _ b2 hgetb2 hold) hii2
      rw [hi2i] at hgetb2 hgsb2 ⊢
      rw [hgeti] at hgetb2
      have hab : a = b2 := (Option.some.injEq _ _).mp hgetb2
      subst hab
      by_cases hE : e = (i + hManhattan goal a, i, a)
      · -- the witness entry itself was popped and processed; then the
        -- next path cell settles, contradicting maximality at i
        exfalso
        have hcura : e.2.2 = a := by rw [hE]
        have hcurg : e.2.1 = i := by rw [hE]
        have hanegoal : a ≠ goal := by
          rw [← hcura]
          exact hgoal
        have hlast : p.get? (p.length - 1) = some goal := by
          rw [← List.getLast?_eq_get?]
          exact hpath.2.2
        have hilt : i + 1 < p.length := by
          have h1 : i < p.length := get?_some_lt hgeti
          by_contra hcon
          have : i = p.length - 1 := by omega
          rw [this, hlast] at hgeti
          exact hanegoal ((Option.some.injEq _ _).mp hgeti.symm)
        have hb1 : ∃ b1, p.get? (i + 1) = some b1 := by
          rcases hg : p.get? (i + 1) with _ | b1
          · rw [List.get?_eq_none] at hg
            omega
          · exact ⟨b1, rfl⟩
        obtain ⟨b1, hgetb1⟩ := hb1
        have hadj : adjCell a b1 := chain'_get?_adj hpath.1.1 hgeti hgetb1
        have hfree : freeCell g b1 :=
          hpath.1.2 b1 (List.get?_mem hgetb1)
        have hnbmem : b1 ∈ g.neighbors4 e.2.2 := by
          rw [hcura]
          exact (mem_neighbors4 g a b1).mpr ⟨hadj, hfree⟩
        obtain ⟨v2, hv2le, hv2⟩ := fF b1 hnbmem
        have hge : i + 1 ≤ v2 :=
          shortest_prefix_min hpath hshort hgetb1 v2
            (finv.hreach (b1, v2) (lookupA_mem hv2))
        have hv2eq : v2 = i + 1 := by
          rw [hcurg] at hv2le
          omega
        rw [hv2eq] at hv2
        have := hmax2 (i + 1) b1 hgetb1 hv2
        omega
      · -- a different minimum was popped; the witness entry survives
        have hrest : (i + hManhattan goal a, i, a) ∈ rest := by
          rw [hr]
          exact mem_eraseFirst_of_ne hheapa (fun h2 => hE h2.symm)
        exact fD _ hrest
    · exact hnew

lemma pathFrom_append_single {g : NavGrid} {q : List Cell} {s c nb : Cell}
    (h : PathFrom g q s c) (hadj : adjCell c nb) (hf : freeCell g nb) :
    PathFrom g (q ++ [nb]) s nb := by
  obtain ⟨⟨hch, hmem⟩, hhd, hlast⟩ := h
  have hne : q ≠ [] := by
    intro he; rw [he] at hhd; exact Option.noConfusion hhd
  refine ⟨⟨?_, ?_⟩, ?_, ?_⟩
  · rw [List.chain'_append]
    refine ⟨hch, List.chain'_singleton nb, ?_⟩
    intro x hx y hy
    simp only [List.head?_cons, Option.mem_def, Option.some.injEq] at hy
    rw [hlast] at hx
    simp only [Option.mem_def, Option.some.injEq] at hx
    subst hx; subst hy
    exact hadj
  · intro x hx
    rcases List.mem_append.mp hx with hx | hx
    · exact hmem x hx
    · simp only [List.mem_singleton] at hx
      rw [hx]; exact hf
  · rw [List.head?_append_of_ne_nil _ hne]
    exact hhd
  · rw [List.getLast?_append_of_ne_nil _ (by simp)]
    rfl

lemma reconList_spec {g : NavGrid} {start goal : Cell} {σ : AState}
    (hinv : AInv g start goal σ) :
    ∀ (v : ℕ) (c : Cell), lookupA σ.gs c = some v →
      ∀ fuel, v + 1 ≤ fuel →
        PathFrom g (reconList σ.came fuel c).reverse start c ∧
          (reconList σ.came fuel c).length ≤ v + 1 := by
  intro v
  induction v using Nat.strong_induction_on with
  | _ v ih =>
    intro c hc fuel hfuel
    have hfree : freeCell g c :=
      (hinv.hreach (c, v) (lookupA_mem hc)).free_dst
    rcases fuel with _ | n
    · omega
    rcases hcame : lookupA σ.came c with _ | pr
    · -- no predecessor: c must be the start cell
      have hcov := hinv.hcover (c, v) (lookupA_mem hc)
      rcases hcov with hst | ⟨pr, hpr⟩
      · simp only at hst
        subst hst
        rw [reconList, hcame]
        refine ⟨⟨⟨List.chain'_singleton c, by simpa using hfree⟩,
          rfl, rfl⟩, by simp⟩
      · simp only at hpr
        rw [hpr] at hcame
        exact Option.noConfusion hcame
    · obtain ⟨hadj, v0, w, hv0, hw, hlt⟩ := hinv.hcame c pr hcame
      obtain rfl := lookupA_fun hv0 hc
      have hrec := ih w hlt pr hw n (by omega)
      rw [reconList, hcame]
      constructor
      · simp only [List.reverse_cons]
        exact pathFrom_append_single hrec.1 hadj hfree
      · simp only [List.length_cons]
        omega

lemma reconstruct_spec {g : NavGrid} {start goal : Cell} {σ : AState}
    (hinv : AInv g start goal σ) {c : Cell} {v : ℕ}
    (hc : lookupA σ.gs c = some v) (hfuel : v + 1 ≤ σ.came.length + 1) :
    PathFrom g (reconstructPath σ.came c) start c ∧
      (reconstructPath σ.came c).length ≤ v + 1 := by
  have := reconList_spec hinv v c hc (σ.came.length + 1) hfuel
  rw [reconstructPath]
  refine ⟨this.1, ?_⟩
  rw [List.length_reverse]
  exact this.2

lemma length_le_filter_add_one {l : List Cell} (start : Cell)
    (hnd : l.Nodup) :
    l.length ≤ (l.filter (fun c => c ≠ start)).length + 1 := by
  induction l with
  | nil => simp
  | cons x xs ih =>
    rw [List.nodup_cons] at hnd
    rw [List.filter_cons]
    split
    · simp only [List.length_cons]
      have := ih hnd.2
      omega
    · next hx =>
      simp only [decide_eq_true_eq, not_not] at hx
      have heq : xs.filter (fun c => c ≠ start) = xs := by
        rw [List.filter_eq_self]
        intro c hc
        simp only [decide_eq_true_eq]
        intro he
        rw [← he] at hx
        rw [hx] at hnd
        exact hnd.1 hc
      rw [heq]
      simp only [List.length_cons]
      have := ih hnd.2
      have hlen := List.length_filter_le (fun c => decide (c ≠ start)) xs
      omega

lemma gs_le_came {g : NavGrid} {start goal : Cell} {σ : AState}
    (hinv : AInv g start goal σ) :
    σ.gs.length ≤ σ.came.length + 1 := by
  classical
  have hnd : (σ.gs.map Prod.fst).Nodup := hinv.hnodup
  have h1 := length_le_filter_add_one start hnd
  have hsub : ((σ.gs.map Prod.fst).filter (fun c => c ≠ start)) ⊆
      σ.came.map Prod.fst := by
    intro c hc
    have hmem := List.mem_of_mem_filter hc
    have hpred := List.of_mem_filter hc
    simp only [decide_eq_true_eq] at hpred
    rw [List.mem_map] at hmem
    obtain ⟨cv, hcv, rfl⟩ := hmem
    rcases hinv.hcover cv hcv with h2 | ⟨pr, hpr⟩
    · exact absurd h2 hpred
    · exact List.mem_map.mpr ⟨(cv.1, pr), lookupA_mem hpr, rfl⟩
  have hsp : ((σ.gs.map Prod.fst).filter (fun c => c ≠ start)).Subperm
      (σ.came.map Prod.fst) :=
    (hnd.filter _).subperm hsub
  have hle := hsp.length_le
  rw [List.length_map] at h1
  rw [List.length_map] at hle
  omega

lemma astarStep_inl_cases {g : NavGrid} {goal : Cell} {σ : AState}
    {r : Option (List Cell)} (h : astarStep g goal σ = .inl r) :
    (r = none ∧ σ.heap = []) ∨
    (∃ e rest, popMin σ.heap = some (e, rest) ∧ e.2.2 = goal ∧
      r = some (reconstructPath σ.came goal)) := by
  rw [astarStep] at h
  rcases hpop : popMin σ.heap with _ | er
  · rw [hpop] at h
    left
    simp only [Sum.inl.injEq] at h
    refine ⟨h.symm, ?_⟩
    cases hh : σ.heap with
    | nil => rfl
    | cons x xs =>
      rw [hh, popMin] at hpop
      exact Option.noConfusion hpop
  · obtain ⟨e, rest⟩ := er
    rw [hpop] at h
    simp only at h
    split at h
    · next hgoal =>
      right
      refine ⟨e, rest, rfl, hgoal, ?_⟩
      simp only [Sum.inl.injEq] at h
      rw [← h, hgoal]
    · split at h
      · exact Sum.noConfusion h
      · exact Sum.noConfusion h

lemma astarLoop_some_sound {g : NavGrid} {start goal : Cell} :
    ∀ (fuel : ℕ) (σ : AState), AInv g start goal σ →
      aMeasure g σ < fuel → ∀ q, astarLoop g goal fuel σ = some q →
      PathFrom g q start goal ∧
        ∃ w, ReachN g start goal w ∧ q.length ≤ w + 1 := by
  intro fuel
  induction fuel with
  | zero => intro σ _ hm; omega
  | succ n ih =>
    intro σ hinv hm q hq
    rw [astarLoop] at hq
    rcases hstep : astarStep g goal σ with r | σ2
    · rw [hstep] at hq
      simp only at hq
      rcases astarStep_inl_cases hstep with ⟨rfl, _⟩ | ⟨e, rest, hpop, hg, rfl⟩
      · exact Option.noConfusion hq
      · obtain ⟨hm2, _, _⟩ := popMin_spec hpop
        obtain ⟨hf, ⟨w, hw, hwle⟩, hre⟩ := hinv.hheap e hm2
        rw [hg] at hw
        have hwb : w < σ.gs.length := hinv.hbound _ (lookupA_mem hw)
        have hcl := gs_le_came hinv
        have hrec := reconstruct_spec hinv hw (by omega)
        obtain rfl := (Option.some.injEq _ _).mp hq
        exact ⟨hrec.1, w, hinv.hreach (goal, w) (lookupA_mem hw), hrec.2⟩
    · rw [hstep] at hq
      simp only at hq
      obtain ⟨hinv2, hm2, _, _⟩ := astarStep_inr_spec hinv hstep
      exact ih σ2 hinv2 (by omega) q hq

lemma astarLoop_complete {g : NavGrid} {start goal : Cell} {p : List Cell}
    (hpath : PathFrom g p start goal)
    (hshort : ∀ m, ReachN g start goal m → p.length ≤ m + 1) :
    ∀ (fuel : ℕ) (σ : AState), AInv g start goal σ →
      aMeasure g σ < fuel → SPInv goal σ p →
      ∃ q, astarLoop g goal fuel σ = some q ∧ q.length ≤ p.length := by
  intro fuel
  induction fuel with
  | zero => intro σ _ hm; omega
  | succ n ih =>
    intro σ hinv hm hsp
    rcases hstep : astarStep g goal σ with r | σ2
    · rcases astarStep_inl_cases hstep with ⟨rfl, hemp⟩ |
        ⟨e, rest, hpop, hg, rfl⟩
      · obtain ⟨i, a, _, _, hheapa, _⟩ := hsp
        rw [hemp] at hheapa
        simp at hheapa
      · obtain ⟨i, a, hgeti, hgsa, hheapa, hmax⟩ := hsp
        obtain ⟨hm2, _, hminh⟩ := popMin_spec hpop
        obtain ⟨hf, ⟨w, hw, hwle⟩, hre⟩ := hinv.hheap e hm2
        rw [hg] at hw
        -- the popped f-score is bounded by the f-score of the witness
        have hle := entLe_f_le (hminh _ hheapa)
        have hmgoal : hManhattan goal goal = 0 := by
          rw [hManhattan]
          simp
        rw [hg, hmgoal] at hf
        have hsuf := pathFrom_suffix hpath hgeti
        have hman := reachN_manhattan hsuf
        have hilt : i < p.length := get?_some_lt hgeti
        have hplen : 1 ≤ p.length := by omega
        have hgv : e.2.1 ≤ p.length - 1 := by omega
        have hwb : w < σ.gs.length := hinv.hbound _ (lookupA_mem hw)
        have hcl := gs_le_came hinv
        have hrec := reconstruct_spec hinv hw (by omega)
        refine ⟨reconstructPath σ.came goal, ?_, ?_⟩
        · rw [astarLoop, hstep]
        · have := hrec.2
          omega
    · obtain ⟨hinv2, hm2, _, _⟩ := astarStep_inr_spec hinv hstep
      have hsp2 := sp_preserve hinv hpath hshort hsp hstep
      obtain ⟨q, hq, hql⟩ := ih σ2 hinv2 (by omega) hsp2
      refine ⟨q, ?_, hql⟩
      rw [astarLoop, hstep]
      exact hq

lemma ainv_init {g : NavGrid} {s t : Cell} (hs : g.inBounds s = true)
    (hbs : g.isBlocked s = false) :
    AInv g s t ⟨[(hManhattan t s, 0, s)], [(s, 0)], []⟩ := by
  have hfree : freeCell g s := ⟨hs, hbs⟩
  refine ⟨by simp, ?_, ?_, ?_, ?_, ?_, ?_⟩
  · intro cv hcv
    simp only [List.mem_singleton] at hcv
    subst hcv
    exact reachN_self hfree
  · intro cv hcv
    simp only [List.mem_singleton] at hcv
    subst hcv
    simp
  · rw [lookupA, if_pos rfl]
  · intro e he
    simp only [List.mem_singleton] at he
    subst he
    refine ⟨(Nat.zero_add _).symm, ⟨0, ?_, le_refl _⟩, reachN_self hfree⟩
    rw [lookupA, if_pos rfl]
  · intro c pr hpr
    rw [lookupA] at hpr
    exact Option.noConfusion hpr
  · intro cv hcv
    simp only [List.mem_singleton] at hcv
    subst hcv
    left
    rfl

lemma head?_get? {α : Type} {p : List α} {a : α} (h : p.head? = some a) :
    p.get? 0 = some a := by
  cases p with
  | nil => exact Option.noConfusion h
  | cons x xs => exact h

lemma pathFrom_reachN {g : NavGrid} {q : List Cell} {s t : Cell}
    (h : PathFrom g q s t) : ReachN g s t (q.length - 1) := by
  have hne := pathFrom_ne_nil h
  refine ⟨q, h, ?_⟩
  have : 1 ≤ q.length := by
    cases q with
    | nil => exact absurd rfl hne
    | cons x xs => simp
  omega

lemma sp_init {g : NavGrid} {s t : Cell} {p : List Cell}
    (hhd : p.head? = some s) :
    SPInv t ⟨[(hManhattan t s, 0, s)], [(s, 0)], []⟩ p := by
  refine ⟨0, s, head?_get? hhd, by rw [lookupA, if_pos rfl], ?_, ?_⟩
  · simp
  · intro j b _ hl
    rw [lookupA] at hl
    split at hl
    · simp only [Option.some.injEq] at hl
      omega
    · exact Option.noConfusion hl

lemma measure_init {g : NavGrid} {s t : Cell} (hs : g.inBounds s = true) :
    aMeasure g ⟨[(hManhattan t s, 0, s)], [(s, 0)], []⟩ < astarFuel g := by
  rw [aMeasure, gsPot, astarFuel]
  simp only [List.length_singleton, msum, List.map_cons, List.map_nil,
    List.sum_cons, List.sum_nil]
  have hK : 1 ≤ g.width * g.height := by
    rw [NavGrid.inBounds, decide_eq_true_eq] at hs
    have hw : 1 ≤ g.width := by omega
    have hh : 1 ≤ g.height := by omega
    exact Nat.one_le_iff_ne_zero.mpr (by positivity)
  have hmul : (g.width * g.height + 1) * (g.width * g.height - 1)
        + (g.width * g.height + 1)
      = (g.width * g.height + 1) * (g.width * g.height) := by
    have ha : g.width * g.height - 1 + 1 = g.width * g.height := by omega
    calc (g.width * g.height + 1) * (g.width * g.height - 1)
          + (g.width * g.height + 1)
        = (g.width * g.height + 1) * (g.width * g.height - 1 + 1) := by ring
      _ = (g.width * g.height + 1) * (g.width * g.height) := by rw [ha]
  have hfuel : 5 * (g.width * g.height + 1) * (g.width * g.height)
      = 5 * ((g.width * g.height + 1) * (g.width * g.height)) := by ring
  omega

/-- C3: for every grid returned by NavGrid.build, a cell is blocked iff
the world-space rectangle of the cell intersects some obstacle rectangle
inflated by the inflate radius; concretely, for bounds (-2,-2)-(2,2),
cell size 1, one obstacle AABB(-0.4,-0.4,0.4,0.4) and inflate 0, exactly
the four cells touching the origin are blocked. -/
theorem C3_blocked_iff_inflated_intersection :
    (∀ (xyMin xyMax : ℚ × ℚ) (cs : ℚ) (obs : List AABB) (inf : ℚ)
        (g : NavGrid), NavGrid.build xyMin xyMax cs obs inf = .ok g →
      ∀ c : Cell, g.inBounds c = true →
        (g.isBlocked c = true ↔ blockedSpec g obs inf c))
    ∧ NavGrid.build ((-2 : ℚ), -2) (2, 2) 1 [demoObstacle] 0 =
        .ok ⟨((-2 : ℚ), -2), (2, 2), 1, 4, 4,
          [[false, false, false, false], [false, true, true, false],
           [false, true, true, false], [false, false, false, false]]⟩ := by
  constructor
  · intro xyMin xyMax cs obs inf g h c hc
    exact build_blocked_iff h c hc
  · exact build_demo

/-- C3 witness: the general theorem applied to the concrete grid shows
cell (1,1) is blocked because its rectangle meets the inflated obstacle. -/
theorem C3_blocked_iff_inflated_intersection_witness :
    blockedSpec demoGrid [demoObstacle] 0 (1, 1) :=
  (C3_blocked_iff_inflated_intersection.1 ((-2 : ℚ), -2) (2, 2) 1
    [demoObstacle] 0 demoGrid build_demo (1, 1) (by decide)).mp (by decide)

lemma simpGo_ne_nil : ∀ (pd : ℤ × ℤ) (l : List Cell), l ≠ [] →
    simpGo pd l ≠ [] := by
  intro pd l
  induction l generalizing pd with
  | nil => intro h; exact absurd rfl h
  | cons x xs ih =>
    intro _
    cases xs with
    | nil => simp [simpGo]
    | cons y ys =>
      rw [simpGo]
      intro hemp
      exact ih (cellDiff x y) (by simp) (List.append_eq_nil.mp hemp).2

lemma simpGo_sublist : ∀ (pd : ℤ × ℤ) (l : List Cell),
    List.Sublist (simpGo pd l) l := by
  intro pd l
  induction l generalizing pd with
  | nil => exact List.Sublist.refl _
  | cons x xs ih =>
    cases xs with
    | nil => exact List.Sublist.refl _
    | cons y ys =>
      rw [simpGo]
      split
      · exact List.cons_sublist_cons.mpr (ih (cellDiff x y))
      · exact (ih (cellDiff x y)).cons _

lemma simpGo_getLast? : ∀ (pd : ℤ × ℤ) (l : List Cell), l ≠ [] →
    (simpGo pd l).getLast? = l.getLast? := by
  intro pd l
  induction l generalizing pd with
  | nil => intro h; exact absurd rfl h
  | cons x xs ih =>
    intro _
    cases xs with
    | nil => rfl
    | cons y ys =>
      rw [simpGo]
      rw [List.getLast?_append_of_ne_nil _ (simpGo_ne_nil _ _ (by simp))]
      rw [ih (cellDiff x y) (by simp), List.getLast?_cons_cons]

lemma simpGo_straight : ∀ (d : ℤ × ℤ) (l : List Cell) (x : Cell),
    List.Chain' (fun a b => cellDiff a b = d) (x :: l) →
    simpGo d (x :: l) = [(x :: l).getLast (by simp)] := by
  intro d l
  induction l with
  | nil => intro x _; rfl
  | cons y ys ih =>
    intro x hch
    rw [List.chain'_cons] at hch
    rw [simpGo, hch.1, if_neg (by simp), List.nil_append, ih y hch.2]
    exact congrArg (fun z => [z]) (List.getLast_cons (by simp)).symm

lemma simpGo_mem_of_dirchange : ∀ (i : ℕ) (l : List Cell) (pd : ℤ × ℤ)
    (a b c : Cell), l.get? i = some a → l.get? (i + 1) = some b →
    l.get? (i + 2) = some c → cellDiff a b ≠ cellDiff b c →
    b ∈ simpGo pd l := by
  intro i
  induction i with
  | zero =>
    intro l pd a b c ha hb hc hne
    cases l with
    | nil => simp at ha
    | cons x xs =>
      cases xs with
      | nil => simp at hb
      | cons y ys =>
        cases ys with
        | nil => simp at hc
        | cons z zs =>
          simp only [List.get?_cons_zero, Option.some.injEq] at ha
          simp only [List.get?_cons_succ, List.get?_cons_zero,
            Option.some.injEq] at hb hc
          subst ha; subst hb; subst hc
          rw [simpGo]
          refine List.mem_append_right _ ?_
          rw [simpGo, if_pos (fun he => hne he.symm)]
          exact List.mem_append_left _ (by simp)
  | succ i ih =>
    intro l pd a b c ha hb hc hne
    cases l with
    | nil => simp at ha
    | cons x xs =>
      simp only [List.get?_cons_succ] at ha hb hc
      cases xs with
      | nil => simp at ha
      | cons y ys =>
        rw [simpGo]
        exact List.mem_append_right _
          (ih (y :: ys) (cellDiff x y) a b c ha hb hc hne)

/-- C6: simplify_path_cells returns paths of two or fewer cells
unchanged; on a straight (constant-step) run it returns exactly the two
endpoints; in general the output is a subsequence of the input that
keeps the first cell, the last cell and every cell whose incoming and
outgoing step directions differ, and never introduces new cells. -/
theorem C6_simplify_path_cells_spec :
    (∀ p : List Cell, p.length ≤ 2 → simplify_path_cells p = p)
    ∧ (∀ (d : ℤ × ℤ) (a b : Cell) (l : List Cell),
        List.Chain' (fun u v => cellDiff u v = d) (a :: b :: l) →
        simplify_path_cells (a :: b :: l) =
          [a, (a :: b :: l).getLast (by simp)])
    ∧ (∀ p : List Cell, List.Sublist (simplify_path_cells p) p)
    ∧ (∀ p : List Cell, (simplify_path_cells p).head? = p.head?
        ∧ (simplify_path_cells p).getLast? = p.getLast?)
    ∧ (∀ (p : List Cell) (i : ℕ) (a b c : Cell),
        p.get? i = some a → p.get? (i + 1) = some b →
        p.get? (i + 2) = some c → cellDiff a b ≠ cellDiff b c →
        b ∈ simplify_path_cells p) := by
  refine ⟨?_, ?_, ?_, ?_, ?_⟩
  · intro p hp
    match p with
    | [] => rfl
    | [a] => rfl
    | [a, b] => rfl
    | a :: b :: c :: r => simp at hp
  · intro d a b l hch
    cases l with
    | nil => rfl
    | cons c l2 =>
      rw [List.chain'_cons] at hch
      rw [simplify_path_cells, hch.1, simpGo_straight d (c :: l2) b hch.2]
      exact congrArg (fun z => [a, z]) (List.getLast_cons (by simp)).symm
  · intro p
    match p with
    | [] => exact List.Sublist.refl _
    | [a] => exact List.Sublist.refl _
    | [a, b] => exact List.Sublist.refl _
    | a :: b :: c :: r =>
      exact List.cons_sublist_cons.mpr (simpGo_sublist _ _)
  · intro p
    match p with
    | [] => exact ⟨rfl, rfl⟩
    | [a] => exact ⟨rfl, rfl⟩
    | [a, b] => exact ⟨rfl, rfl⟩
    | a :: b :: c :: r =>
      refine ⟨rfl, ?_⟩
      rw [simplify_path_cells, ← List.singleton_append]
      rw [List.getLast?_append_of_ne_nil _ (simpGo_ne_nil _ _ (by simp))]
      rw [simpGo_getLast? _ _ (by simp)]
      simp [List.getLast?_cons_cons]
  · intro p i a b c ha hb hc hne
    match p, i, ha, hb, hc with
    | p0 :: p1 :: p2 :: r, 0, ha, hb, hc =>
      simp only [List.get?_cons_zero, List.get?_cons_succ,
        Option.some.injEq] at ha hb hc
      subst ha; subst hb; subst hc
      rw [simplify_path_cells]
      refine List.mem_cons_of_mem _ ?_
      rw [simpGo, if_pos (fun he => hne he.symm)]
      exact List.mem_append_left _ (by simp)
    | p0 :: p1 :: p2 :: r, (j + 1), ha, hb, hc =>
      simp only [List.get?_cons_succ] at ha hb hc
      rw [simplify_path_cells]
      exact List.mem_cons_of_mem _
        (simpGo_mem_of_dirchange j (p1 :: p2 :: r) _ a b c ha hb hc hne)
    | [], i, ha, hb, hc => simp at ha
    | [a0], 0, ha, hb, hc => simp at hb
    | [a0], (j + 1), ha, hb, hc => simp at ha
    | [a0, a1], 0, ha, hb, hc => simp at hc
    | [a0, a1], 1, ha, hb, hc => simp at hb
    | [a0, a1], (j + 2), ha, hb, hc => simp at ha

/-- C6 witness: a straight three-cell run collapses to its endpoints,
and a direction-change cell is kept. -/
theorem C6_simplify_path_cells_spec_witness :
    simplify_path_cells [((0 : ℤ), (0 : ℤ)), (1, 0), (2, 0)] =
        [(0, 0), (2, 0)]
    ∧ ((2 : ℤ), (0 : ℤ)) ∈
        simplify_path_cells [((0 : ℤ), (0 : ℤ)), (1, 0), (2, 0), (2, 1)] := by
  constructor
  · refine (C6_simplify_path_cells_spec.2.1 (1, 0) (0, 0) (1, 0) [(2, 0)]
      ?_).trans (by decide)
    exact List.chain'_cons.mpr ⟨by decide,
      List.chain'_cons.mpr ⟨by decide, List.chain'_singleton _⟩⟩
  · exact C6_simplify_path_cells_spec.2.2.2.2
      [((0 : ℤ), (0 : ℤ)), (1, 0), (2, 0), (2, 1)] 1 (1, 0) (2, 0) (2, 1)
      (by decide) (by decide) (by decide) (by decide)

/-- C9: NavGrid.build fails exactly when the bounds are inverted or empty
on some axis or the cell size is not positive; no invalid configuration
is silently defaulted to a grid. -/
theorem C9_build_error_iff_invalid :
    ∀ (xyMin xyMax : ℚ × ℚ) (cs : ℚ) (obs : List AABB) (inf : ℚ),
      (∃ e, NavGrid.build xyMin xyMax cs obs inf = .error e) ↔
        (xyMax.1 ≤ xyMin.1 ∨ xyMax.2 ≤ xyMin.2 ∨ cs ≤ 0) := by
  intro xyMin xyMax cs obs inf
  unfold NavGrid.build
  split
  · rename_i hb
    simp only [Except.error.injEq]
    exact ⟨fun _ => by tauto, fun _ => ⟨"Invalid bounds", rfl⟩⟩
  · rename_i hb
    push_neg at hb
    split
    · rename_i hcs
      simp only [Except.error.injEq]
      refine ⟨fun _ => by tauto, fun _ => ⟨"cell_size must be > 0", rfl⟩⟩
    · rename_i hcs
      push_neg at hcs
      simp only [reduceCtorEq, exists_false, false_iff]
      push_neg
      exact ⟨hb.1, hb.2, hcs⟩

/-- C9 witness: a non-positive cell size is rejected. -/
theorem C9_build_error_iff_invalid_witness :
    ∃ e, NavGrid.build ((0 : ℚ), 0) (1, 1) 0 [] 0 = .error e :=
  (C9_build_error_iff_invalid ((0 : ℚ), 0) (1, 1) 0 [] 0).mpr (by norm_num)


/-- C7: apply_action with ACCELERATE or DECELERATE moves the target
speed by the fixed delta clamped into [0, max_speed] and resets the
target yaw-rate to 0; TURN_LEFT and TURN_RIGHT set the target yaw-rate
to plus or minus turn_rate and leave the target speed unchanged; under
a nonnegative configuration the target speed stays within
[0, max_speed]. -/
theorem C7_apply_action_targets :
    ∀ (cfg : CarCfg) (s : CtrlState),
      (apply_action cfg s .ACCELERATE =
        ⟨min cfg.maxSpeed (s.targetSpeed + cfg.speedDelta), 0⟩)
      ∧ (apply_action cfg s .DECELERATE =
        ⟨max 0 (s.targetSpeed - cfg.speedDelta), 0⟩)
      ∧ (apply_action cfg s .TURN_LEFT = ⟨s.targetSpeed, cfg.turnRate⟩)
      ∧ (apply_action cfg s .TURN_RIGHT = ⟨s.targetSpeed, -cfg.turnRate⟩)
      ∧ (∀ a : DiscreteAction, 0 ≤ cfg.maxSpeed → 0 ≤ cfg.speedDelta →
          0 ≤ s.targetSpeed → s.targetSpeed ≤ cfg.maxSpeed →
          0 ≤ (apply_action cfg s a).targetSpeed ∧
            (apply_action cfg s a).targetSpeed ≤ cfg.maxSpeed) := by
  intro cfg s
  refine ⟨rfl, rfl, rfl, rfl, ?_⟩
  intro a hmax hdelta h0 h1
  cases a with
  | ACCELERATE =>
    constructor
    · exact le_min hmax (by linarith)
    · exact min_le_left _ _
  | DECELERATE =>
    constructor
    · exact le_max_left _ _
    · exact max_le hmax (by linarith)
  | TURN_LEFT => exact ⟨h0, h1⟩
  | TURN_RIGHT => exact ⟨h0, h1⟩

/-- C7 witness: with the default configuration (max_speed 5,
speed_delta 0.5, turn_rate 1.5) and targets at rest, accelerating keeps
the target speed inside [0, 5]. -/
theorem C7_apply_action_targets_witness :
    0 ≤ (apply_action ⟨5, 1/2, 3/2⟩ ⟨0, 0⟩ .ACCELERATE).targetSpeed ∧
      (apply_action ⟨5, 1/2, 3/2⟩ ⟨0, 0⟩ .ACCELERATE).targetSpeed ≤ 5 :=
  (C7_apply_action_targets ⟨5, 1/2, 3/2⟩ ⟨0, 0⟩).2.2.2.2 .ACCELERATE
    (by norm_num) (by norm_num) (by norm_num) (by norm_num)

/-- C2: astar returns none when an endpoint is out of bounds or blocked;
a returned path is a valid 4-connected unblocked cell sequence from
start to goal inclusive of minimal cell count; with valid endpoints it
returns none exactly when no path exists (the open set empties); and on
the empty 4 by 4 grid the path from (0,0) to (3,3) has exactly 7 cells. -/
theorem C2_astar_spec :
    (∀ (g : NavGrid) (s t : Cell),
      (¬ g.inBounds s = true ∨ ¬ g.inBounds t = true ∨
        g.isBlocked s = true ∨ g.isBlocked t = true) →
      astar g s t = none)
    ∧ (∀ (g : NavGrid) (s t : Cell) (q : List Cell), astar g s t = some q →
        PathFrom g q s t ∧ ∀ q2, PathFrom g q2 s t → q.length ≤ q2.length)
    ∧ (∀ (g : NavGrid) (s t : Cell), g.inBounds s = true →
        g.inBounds t = true → g.isBlocked s = false →
        g.isBlocked t = false →
        (astar g s t = none ↔ ¬ ∃ q, PathFrom g q s t))
    ∧ (astar emptyGrid4 (0, 0) (3, 3)).map List.length = some 7 := by
  have hsound : ∀ (g : NavGrid) (s t : Cell) (q : List Cell),
      astar g s t = some q →
      (g.inBounds s = true ∧ g.inBounds t = true ∧ g.isBlocked s = false ∧
        g.isBlocked t = false) ∧
      PathFrom g q s t ∧ ∃ w, ReachN g s t w ∧ q.length ≤ w + 1 := by
    intro g s t q hq
    rw [astar] at hq
    split at hq
    · exact Option.noConfusion hq
    split at hq
    · exact Option.noConfusion hq
    next h1 h2 =>
    push_neg at h1 h2
    have hs := h1.1
    have ht := h1.2
    have hbs : g.isBlocked s = false := by
      rcases hb : g.isBlocked s with _ | _
      · rfl
      · exact absurd hb h2.1
    have hbt : g.isBlocked t = false := by
      rcases hb : g.isBlocked t with _ | _
      · rfl
      · exact absurd hb h2.2
    have hinv := @ainv_init g s t hs hbs
    have hm := @measure_init g s t hs
    exact ⟨⟨hs, ht, hbs, hbt⟩,
      astarLoop_some_sound (astarFuel g) _ hinv hm q hq⟩
  have hcomplete : ∀ (g : NavGrid) (s t : Cell), g.inBounds s = true →
      g.isBlocked s = false → (∃ q2, PathFrom g q2 s t) →
      ∃ q, astar g s t = some q ∧
        ∀ q2, PathFrom g q2 s t → q.length ≤ q2.length := by
    intro g s t hs hbs ⟨q2, hq2⟩
    have hreach0 : ∃ n, ReachN g s t n := ⟨q2.length - 1, pathFrom_reachN hq2⟩
    obtain ⟨d, hd, hdmin⟩ := exists_min_reach hreach0
    obtain ⟨p, hp, hplen⟩ := hd
    have hshort : ∀ m, ReachN g s t m → p.length ≤ m + 1 := by
      intro m hm2
      rw [hplen]
      have := hdmin m hm2
      omega
    have hinv := @ainv_init g s t hs hbs
    have hm := @measure_init g s t hs
    have hsp := @sp_init g s t p hp.2.1
    obtain ⟨q, hq, hql⟩ :=
      astarLoop_complete hp hshort (astarFuel g) _ hinv hm hsp
    have ht : g.inBounds t = true := ((pathFrom_reachN hq2).free_dst).1
    have hbt : g.isBlocked t = false := ((pathFrom_reachN hq2).free_dst).2
    refine ⟨q, ?_, ?_⟩
    · rw [astar]
      rw [if_neg (by simp [hs, ht]), if_neg (by simp [hbs, hbt])]
      exact hq
    · intro q3 hq3
      have h3 := hdmin _ (pathFrom_reachN hq3)
      have hne3 := pathFrom_ne_nil hq3
      have : 1 ≤ q3.length := by
        cases q3 with
        | nil => exact absurd rfl hne3
        | cons x xs => simp
      omega
  refine ⟨?_, ?_, ?_, by decide⟩
  · intro g s t hbad
    rw [astar]
    by_cases h1 : ¬ g.inBounds s = true ∨ ¬ g.inBounds t = true
    · rw [if_pos h1]
    · rw [if_neg h1]
      push_neg at h1
      have h2 : g.isBlocked s = true ∨ g.isBlocked t = true := by
        rcases hbad with h | h | h | h
        · exact absurd h1.1 h
        · exact absurd h1.2 h
        · left; exact h
        · right; exact h
      rw [if_pos h2]
  · intro g s t q hq
    obtain ⟨⟨hs, ht, hbs, hbt⟩, hpath, w, hw, hwl⟩ := hsound g s t q hq
    refine ⟨hpath, ?_⟩
    intro q2 hq2
    obtain ⟨q3, hq3, hq3min⟩ := hcomplete g s t hs hbs ⟨q2, hq2⟩
    rw [hq] at hq3
    obtain rfl := (Option.some.injEq _ _).mp hq3.symm
    exact hq3min q2 hq2
  · intro g s t hs ht hbs hbt
    constructor
    · intro hnone ⟨q2, hq2⟩
      obtain ⟨q, hq, _⟩ := hcomplete g s t hs hbs ⟨q2, hq2⟩
      rw [hnone] at hq
      exact Option.noConfusion hq
    · intro hnopath
      rcases hq : astar g s t with _ | q
      · rfl
      · obtain ⟨_, hpath, _⟩ := hsound g s t q hq
        exact absurd ⟨q, hpath⟩ hnopath

/-- C2 witness: a concrete run returning a minimal 3-cell path whose
validity follows from the general theorem. -/
theorem C2_astar_spec_witness :
    PathFrom emptyGrid4 [(0, 0), (0, 1), (0, 2)] (0, 0) (0, 2) :=
  (C2_astar_spec.2.1 emptyGrid4 (0, 0) (0, 2) [(0, 0), (0, 1), (0, 2)]
    (by decide)).1

/-- applyContact is right-commutative: folding two attributed contacts
into the accumulator in either order yields the same result. -/
theorem applyContact_comm (acc : PollAcc) (k1 k2 : Option (ℕ × Option ℚ)) :
    applyContact (applyContact acc k1) k2
      = applyContact (applyContact acc k2) k1 := by
  rcases k1 with _ | ⟨e1, f1⟩
  · rfl
  rcases k2 with _ | ⟨e2, f2⟩
  · rfl
  have hcounts : (fun n => if n = e2 then
        (if n = e1 then acc.counts n + 1 else acc.counts n) + 1
        else (if n = e1 then acc.counts n + 1 else acc.counts n))
      = (fun n => if n = e1 then
        (if n = e2 then acc.counts n + 1 else acc.counts n) + 1
        else (if n = e2 then acc.counts n + 1 else acc.counts n)) := by
    rcases eq_or_ne e1 e2 with rfl | h12
    · rfl
    funext n
    by_cases h1 : n = e1 <;> by_cases h2 : n = e2 <;>
      first
      | exact absurd (h1.symm.trans h2) h12
      | simp [h1, h2, h12, Ne.symm h12]
  rcases f1 with _ | a <;> rcases f2 with _ | b
  · simp only [applyContact, PollAcc.mk.injEq]
    exact ⟨Finset.Insert.comm _ _ _, hcounts, trivial⟩
  · simp only [applyContact, PollAcc.mk.injEq]
    exact ⟨Finset.Insert.comm _ _ _, hcounts, trivial⟩
  · simp only [applyContact, PollAcc.mk.injEq]
    exact ⟨Finset.Insert.comm _ _ _, hcounts, trivial⟩
  · simp only [applyContact, PollAcc.mk.injEq]
    refine ⟨Finset.Insert.comm _ _ _, hcounts, ?_⟩
    funext n
    rcases eq_or_ne e1 e2 with rfl | h12
    · by_cases h : n = e1
      · subst h
        rcases hm : acc.maxf n with _ | m <;>
          simp [hm, max_assoc, max_comm a b]
      · simp [h]
    · by_cases h1 : n = e1 <;> by_cases h2 : n = e2
      · exact absurd (h1.symm.trans h2) h12
      · simp [h1, h2, h12, Ne.symm h12]
      · simp [h1, h2, h12, Ne.symm h12]
      · simp [h1, h2]

/-- The skip conditions of pollStep read only the contact, so pollStep
is right-commutative. -/
theorem pollStep_comm (gs ge : ℤ) (ign : List (ℤ × ℤ))
    (trk : List (ℤ × ℤ × ℕ)) (mF : ℚ) (n3 : ℚ × ℚ × ℚ → ℚ) (uF : Bool)
    (acc : PollAcc) (c1 c2 : Contact) :
    pollStep gs ge ign trk mF n3 uF
        (pollStep gs ge ign trk mF n3 uF acc c1) c2
      = pollStep gs ge ign trk mF n3 uF
        (pollStep gs ge ign trk mF n3 uF acc c2) c1 :=
  applyContact_comm acc _ _

/-- Folding a right-commutative function is invariant under
permutation of the list. -/
theorem foldl_perm_of_comm {α β : Type} (f : β → α → β)
    (hc : ∀ b a1 a2, f (f b a1) a2 = f (f b a2) a1)
    {l1 l2 : List α} (hp : l1.Perm l2) :
    ∀ b, l1.foldl f b = l2.foldl f b := by
  induction hp with
  | nil => intro b; rfl
  | cons x hp ih => intro b; simp only [List.foldl_cons]; exact ih _
  | swap x y l => intro b; simp only [List.foldl_cons]; rw [hc]
  | trans hp1 hp2 ih1 ih2 => intro b; rw [ih1 b, ih2 b]

/-- The per-tick accumulator is independent of the iteration order of
the contact list. -/
theorem pollAccum_perm (gs ge : ℤ) (ign : List (ℤ × ℤ))
    (trk : List (ℤ × ℤ × ℕ)) (mF : ℚ) (n3 : ℚ × ℚ × ℚ → ℚ) (uF : Bool)
    {cl1 cl2 : List Contact} (hp : cl1.Perm cl2) :
    pollAccum gs ge ign trk mF n3 uF cl1
      = pollAccum gs ge ign trk mF n3 uF cl2 :=
  foldl_perm_of_comm (pollStep gs ge ign trk mF n3 uF)
    (pollStep_comm gs ge ign trk mF n3 uF) hp _

/-- geom_to_tracked_id only ever returns ids of tracked ranges. -/
theorem geomToTrackedId_mem {gm : ℤ} {ign : List (ℤ × ℤ)}
    {trk : List (ℤ × ℤ × ℕ)} {eid : ℕ}
    (h : geomToTrackedId gm ign trk = some eid) :
    eid ∈ trackedIdsOf trk := by
  unfold geomToTrackedId at h
  split at h
  · exact Option.noConfusion h
  · obtain ⟨r, hr, hsr⟩ := List.exists_of_findSome?_eq_some h
    split at hsr
    · cases hsr
      simp only [trackedIdsOf]
      exact List.mem_map.mpr ⟨r, hr, rfl⟩
    · exact Option.noConfusion hsr

/-- contactKey only attributes contacts to tracked ids. -/
theorem contactKey_mem {gs ge : ℤ} {ign : List (ℤ × ℤ)}
    {trk : List (ℤ × ℤ × ℕ)} {mF : ℚ} {n3 : ℚ × ℚ × ℚ → ℚ} {uF : Bool}
    {c : Contact} {eid : ℕ} {fo : Option ℚ}
    (h : contactKey gs ge ign trk mF n3 uF c = some (eid, fo)) :
    eid ∈ trackedIdsOf trk := by
  simp only [contactKey] at h
  by_cases hor : (decide (gs ≤ c.geomA ∧ c.geomA < ge)
      || decide (gs ≤ c.geomB ∧ c.geomB < ge)) = true
  · rw [if_pos hor] at h
    rcases hg : geomToTrackedId
        (if decide (gs ≤ c.geomA ∧ c.geomA < ge) = true
         then c.geomB else c.geomA) ign trk with _ | e
    · rw [hg] at h
      exact Option.noConfusion h
    · rw [hg] at h
      have he : eid = e := by
        cases uF
        · simp only [Bool.false_eq_true, if_false, Option.some.injEq,
            Prod.mk.injEq] at h
          exact h.1.symm
        · simp only [if_true] at h
          by_cases hf : n3 (if decide (gs ≤ c.geomA ∧ c.geomA < ge) = true
              then c.forceA else c.forceB) < mF
          · rw [if_pos hf] at h
            exact Option.noConfusion h
          · rw [if_neg hf] at h
            simp only [Option.some.injEq, Prod.mk.injEq] at h
            exact h.1.symm
      subst he
      exact geomToTrackedId_mem hg
  · rw [if_neg hor] at h
    exact Option.noConfusion h

/-- When the force threshold is not in use, contactKey never carries a
force magnitude. -/
theorem contactKey_false_fo {gs ge : ℤ} {ign : List (ℤ × ℤ)}
    {trk : List (ℤ × ℤ × ℕ)} {mF : ℚ} {n3 : ℚ × ℚ × ℚ → ℚ}
    {c : Contact} {eid : ℕ} {fo : Option ℚ}
    (h : contactKey gs ge ign trk mF n3 false c = some (eid, fo)) :
    fo = none := by
  simp only [contactKey, Bool.false_eq_true, if_false] at h
  by_cases hor : (decide (gs ≤ c.geomA ∧ c.geomA < ge)
      || decide (gs ≤ c.geomB ∧ c.geomB < ge)) = true
  · rw [if_pos hor] at h
    rcases hg : geomToTrackedId
        (if decide (gs ≤ c.geomA ∧ c.geomA < ge) = true
         then c.geomB else c.geomA) ign trk with _ | e
    · rw [hg] at h
      exact Option.noConfusion h
    · rw [hg] at h
      simp only [Option.some.injEq, Prod.mk.injEq] at h
      exact h.2.symm
  · rw [if_neg hor] at h
    exact Option.noConfusion h

/-- Every id accumulated over a contact list is a tracked id. -/
theorem pollAccum_ids_tracked (gs ge : ℤ) (ign : List (ℤ × ℤ))
    (trk : List (ℤ × ℤ × ℕ)) (mF : ℚ) (n3 : ℚ × ℚ × ℚ → ℚ) (uF : Bool)
    (cl : List Contact) :
    ∀ eid ∈ (pollAccum gs ge ign trk mF n3 uF cl).ids,
      eid ∈ trackedIdsOf trk := by
  have main : ∀ (l : List Contact) (acc : PollAcc),
      (∀ eid ∈ acc.ids, eid ∈ trackedIdsOf trk) →
      ∀ eid ∈ (l.foldl (pollStep gs ge ign trk mF n3 uF) acc).ids,
        eid ∈ trackedIdsOf trk := by
    intro l
    induction l with
    | nil => intro acc h; exact h
    | cons c cs ih =>
      intro acc h
      rw [List.foldl_cons]
      refine ih _ ?_
      intro eid he
      rcases hk : contactKey gs ge ign trk mF n3 uF c with _ | ⟨e, fo⟩
      · simp only [pollStep, hk, applyContact] at he
        exact h eid he
      · simp only [pollStep, hk, applyContact, Finset.mem_insert] at he
        rcases he with rfl | he
        · exact contactKey_mem hk
        · exact h eid he
  intro eid he
  exact main cl ⟨∅, fun _ => 0, fun _ => none⟩
    (fun x hx => absurd hx (Finset.not_mem_empty x)) eid he

/-- When the force threshold is not in use, the accumulated per-entity
max force stays empty: the force data is never read. -/
theorem pollAccum_maxf_none (gs ge : ℤ) (ign : List (ℤ × ℤ))
    (trk : List (ℤ × ℤ × ℕ)) (mF : ℚ) (n3 : ℚ × ℚ × ℚ → ℚ)
    (cl : List Contact) :
    (pollAccum gs ge ign trk mF n3 false cl).maxf = fun _ => none := by
  have main : ∀ (l : List Contact) (acc : PollAcc),
      acc.maxf = (fun _ => none) →
      (l.foldl (pollStep gs ge ign trk mF n3 false) acc).maxf
        = fun _ => none := by
    intro l
    induction l with
    | nil => intro acc h; exact h
    | cons c cs ih =>
      intro acc h
      rw [List.foldl_cons]
      refine ih _ ?_
      rcases hk : contactKey gs ge ign trk mF n3 false c with _ | ⟨e, fo⟩
      · simp only [pollStep, hk, applyContact]
        exact h
      · obtain rfl := contactKey_false_fo hk
        simp only [pollStep, hk, applyContact]
        exact h
  exact main cl _ rfl

/-- Counting a key in a duplicate-free list. -/
theorem nodup_countP_eq {l : List ℕ} (h : l.Nodup) (a : ℕ) :
    l.countP (fun x => decide (x = a)) = if a ∈ l then 1 else 0 := by
  induction l with
  | nil => simp
  | cons b bs ih =>
    obtain ⟨hb, hbs⟩ := List.nodup_cons.mp h
    rw [List.countP_cons, ih hbs]
    by_cases hab : a = b
    · subst hab
      simp [hb]
    · have hba : ¬(b = a) := fun hx => hab hx.symm
      simp [List.mem_cons, hab, hba]

/-- Begin ids form a duplicate-free list. -/
theorem pollBegins_nodup (acc : PollAcc) (st : CollState) :
    (pollBegins acc st).Nodup :=
  (Finset.sort_nodup _ _).filter _

/-- End ids form a duplicate-free list. -/
theorem pollEnds_nodup (acc : PollAcc) (st : CollState) :
    (pollEnds acc st).Nodup :=
  (Finset.sort_nodup _ _).filter _

/-- Begin ids are emitted in ascending order. -/
theorem pollBegins_sorted (acc : PollAcc) (st : CollState) :
    (pollBegins acc st).Sorted (· ≤ ·) :=
  List.Pairwise.filter _ (Finset.sort_sorted _ _)

/-- End ids are emitted in ascending order. -/
theorem pollEnds_sorted (acc : PollAcc) (st : CollState) :
    (pollEnds acc st).Sorted (· ≤ ·) :=
  List.Pairwise.filter _ (Finset.sort_sorted _ _)

/-- A begin id was gained this tick. -/
theorem mem_pollBegins_sub {acc : PollAcc} {st : CollState} {eid : ℕ}
    (h : eid ∈ pollBegins acc st) : eid ∈ acc.ids \ st.activeIds := by
  simp only [pollBegins, List.mem_filter, Finset.mem_sort] at h
  exact h.1

/-- An end id was lost this tick. -/
theorem mem_pollEnds_sub {acc : PollAcc} {st : CollState} {eid : ℕ}
    (h : eid ∈ pollEnds acc st) : eid ∈ st.activeIds \ acc.ids := by
  simp only [pollEnds, List.mem_filter, Finset.mem_sort] at h
  exact h.1

/-- When every accumulated id is tracked, the begin list is exactly the
gained set. -/
theorem mem_pollBegins {acc : PollAcc} {st : CollState} {eid : ℕ}
    (htr : ∀ x ∈ acc.ids, x ∈ trackedIdsOf st.trackedRanges) :
    eid ∈ pollBegins acc st ↔ eid ∈ acc.ids \ st.activeIds := by
  constructor
  · exact mem_pollBegins_sub
  · intro h
    simp only [pollBegins, List.mem_filter, Finset.mem_sort,
      decide_eq_true_eq]
    exact ⟨h, htr eid (Finset.mem_sdiff.mp h).1⟩

/-- When every previously active id is tracked, the end list is exactly
the lost set. -/
theorem mem_pollEnds {acc : PollAcc} {st : CollState} {eid : ℕ}
    (hact : ∀ x ∈ st.activeIds, x ∈ trackedIdsOf st.trackedRanges) :
    eid ∈ pollEnds acc st ↔ eid ∈ st.activeIds \ acc.ids := by
  constructor
  · exact mem_pollEnds_sub
  · intro h
    simp only [pollEnds, List.mem_filter, Finset.mem_sort,
      decide_eq_true_eq]
    exact ⟨h, hact eid (Finset.mem_sdiff.mp h).1⟩

/-- The reduced form of a poll that has tracked ranges, a car geometry
range and contact data. -/
theorem poll_some_eq (norm3 : ℚ × ℚ × ℚ → ℚ) (st : CollState)
    (stepIdx : ℤ) (minForce : ℚ) (gs ge : ℤ) (cl : List Contact)
    (fa : Bool) (acc : PollAcc) (hne : st.trackedRanges ≠ [])
    (hacc : acc = pollAccum gs ge st.ignoreRanges st.trackedRanges
      minForce norm3 (decide (0 < minForce) && fa) cl) :
    poll_collision_events norm3 st stepIdx minForce (some (gs, ge))
        (some (cl, fa))
      = ((pollBegins acc st).map (fun eid =>
            ⟨stepIdx, .BEGIN, eid, acc.maxf eid, acc.counts eid⟩)
          ++ (pollEnds acc st).map (fun eid =>
            (⟨stepIdx, .END, eid, afterBeginsF acc st eid, 0⟩ :
              CollisionEvent)),
         ⟨st.trackedRanges, st.ignoreRanges, acc.ids,
          finalMaxF acc st⟩) := by
  subst hacc
  unfold poll_collision_events
  rw [if_neg hne]
/-- C4: in one poll with tracked ranges, against a previous active set
of tracked ids, each id gained this tick yields exactly one BEGIN event
carrying this tick's max force and contact count, each id lost yields
exactly one END event carrying the stored last known max force with
contact count 0, the event list is all BEGINs followed by all ENDs with
each group sorted ascending by entity id, the gained ids become the new
active set, and the whole result is independent of the iteration order
of the contact list. -/
theorem C4_collision_events_spec (norm3 : ℚ × ℚ × ℚ → ℚ)
    (st : CollState) (stepIdx : ℤ) (minForce : ℚ) (gs ge : ℤ)
    (cl : List Contact) (fa : Bool) (acc : PollAcc)
    (out : List CollisionEvent × CollState)
    (hne : st.trackedRanges ≠ [])
    (hact : ∀ eid ∈ st.activeIds, eid ∈ trackedIdsOf st.trackedRanges)
    (hacc : acc = pollAccum gs ge st.ignoreRanges st.trackedRanges
      minForce norm3 (decide (0 < minForce) && fa) cl)
    (hout : out = poll_collision_events norm3 st stepIdx minForce
      (some (gs, ge)) (some (cl, fa))) :
    (∀ eid : ℕ, out.1.countP
        (fun e => decide (e.phase = CollisionPhase.BEGIN ∧ e.otherId = eid))
        = if eid ∈ acc.ids \ st.activeIds then 1 else 0)
    ∧ (∀ e ∈ out.1, e.phase = CollisionPhase.BEGIN →
        e.stepIdx = stepIdx ∧ e.maxForce = acc.maxf e.otherId
          ∧ e.contactCount = acc.counts e.otherId)
    ∧ (∀ eid : ℕ, out.1.countP
        (fun e => decide (e.phase = CollisionPhase.END ∧ e.otherId = eid))
        = if eid ∈ st.activeIds \ acc.ids then 1 else 0)
    ∧ (∀ e ∈ out.1, e.phase = CollisionPhase.END →
        e.stepIdx = stepIdx ∧ e.maxForce = st.activeMaxForce e.otherId
          ∧ e.contactCount = 0)
    ∧ (∃ bl el, out.1 = bl ++ el
        ∧ (∀ e ∈ bl, e.phase = CollisionPhase.BEGIN)
        ∧ (∀ e ∈ el, e.phase = CollisionPhase.END)
        ∧ (bl.map CollisionEvent.otherId).Sorted (· ≤ ·)
        ∧ (el.map CollisionEvent.otherId).Sorted (· ≤ ·))
    ∧ out.2.activeIds = acc.ids
    ∧ (∀ cl2 : List Contact, cl.Perm cl2 →
        poll_collision_events norm3 st stepIdx minForce (some (gs, ge))
          (some (cl2, fa)) = out) := by
  have htr : ∀ x ∈ acc.ids, x ∈ trackedIdsOf st.trackedRanges := by
    rw [hacc]
    exact pollAccum_ids_tracked gs ge st.ignoreRanges st.trackedRanges
      minForce norm3 (decide (0 < minForce) && fa) cl
  have hpoll := poll_some_eq norm3 st stepIdx minForce gs ge cl fa acc
    hne hacc
  have hfst : out.1 = (pollBegins acc st).map (fun eid =>
      ⟨stepIdx, .BEGIN, eid, acc.maxf eid, acc.counts eid⟩)
      ++ (pollEnds acc st).map (fun eid =>
      (⟨stepIdx, .END, eid, afterBeginsF acc st eid, 0⟩ :
        CollisionEvent)) := by
    rw [hout, hpoll]
  have hsnd : out.2 = ⟨st.trackedRanges, st.ignoreRanges, acc.ids,
      finalMaxF acc st⟩ := by
    rw [hout, hpoll]
  refine ⟨?_, ?_, ?_, ?_, ?_, ?_, ?_⟩
  · intro eid
    rw [hfst, List.countP_append, List.countP_map, List.countP_map]
    have hz : List.countP
        ((fun e => decide (e.phase = CollisionPhase.BEGIN ∧ e.otherId = eid))
          ∘ (fun x => (⟨stepIdx, .END, x, afterBeginsF acc st x, 0⟩ :
            CollisionEvent)))
        (pollEnds acc st) = 0 := by
      rw [List.countP_eq_zero]
      intro x hx
      simp
    have hpg : ((fun e => decide (e.phase = CollisionPhase.BEGIN
          ∧ e.otherId = eid))
        ∘ (fun x => (⟨stepIdx, .BEGIN, x, acc.maxf x, acc.counts x⟩ :
          CollisionEvent))) = fun x => decide (x = eid) := by
      funext x
      simp
    rw [hz, hpg, Nat.add_zero, nodup_countP_eq (pollBegins_nodup acc st) eid]
    by_cases hm : eid ∈ acc.ids \ st.activeIds
    · rw [if_pos ((mem_pollBegins htr).mpr hm), if_pos hm]
    · rw [if_neg (fun hc => hm ((mem_pollBegins htr).mp hc)), if_neg hm]
  · intro e he hph
    rw [hfst] at he
    rcases List.mem_append.mp he with h1 | h2
    · obtain ⟨x, hx, rfl⟩ := List.mem_map.mp h1
      exact ⟨rfl, rfl, rfl⟩
    · obtain ⟨x, hx, rfl⟩ := List.mem_map.mp h2
      exact CollisionPhase.noConfusion hph
  · intro eid
    rw [hfst, List.countP_append, List.countP_map, List.countP_map]
    have hz : List.countP
        ((fun e => decide (e.phase = CollisionPhase.END ∧ e.otherId = eid))
          ∘ (fun x => (⟨stepIdx, .BEGIN, x, acc.maxf x, acc.counts x⟩ :
            CollisionEvent)))
        (pollBegins acc st) = 0 := by
      rw [List.countP_eq_zero]
      intro x hx
      simp
    have hpg : ((fun e => decide (e.phase = CollisionPhase.END
          ∧ e.otherId = eid))
        ∘ (fun x => (⟨stepIdx, .END, x, afterBeginsF acc st x, 0⟩ :
          CollisionEvent))) = fun x => decide (x = eid) := by
      funext x
      simp
    rw [hz, hpg, Nat.zero_add, nodup_countP_eq (pollEnds_nodup acc st) eid]
    by_cases hm : eid ∈ st.activeIds \ acc.ids
    · rw [if_pos ((mem_pollEnds hact).mpr hm), if_pos hm]
    · rw [if_neg (fun hc => hm ((mem_pollEnds hact).mp hc)), if_neg hm]
  · intro e he hph
    rw [hfst] at he
    rcases List.mem_append.mp he with h1 | h2
    · obtain ⟨x, hx, rfl⟩ := List.mem_map.mp h1
      exact CollisionPhase.noConfusion hph
    · obtain ⟨x, hx, rfl⟩ := List.mem_map.mp h2
      have hxe := mem_pollEnds_sub hx
      have hnb : x ∉ pollBegins acc st := by
        intro hc
        have h1 := Finset.mem_sdiff.mp (mem_pollBegins_sub hc)
        have h2 := Finset.mem_sdiff.mp hxe
        exact h1.2 h2.1
      refine ⟨rfl, ?_, rfl⟩
      show afterBeginsF acc st x = st.activeMaxForce x
      simp only [afterBeginsF, if_neg hnb]
  · refine ⟨_, _, hfst, ?_, ?_, ?_, ?_⟩
    · intro e he
      obtain ⟨x, hx, rfl⟩ := List.mem_map.mp he
      rfl
    · intro e he
      obtain ⟨x, hx, rfl⟩ := List.mem_map.mp he
      rfl
    · rw [List.map_map]
      have hid : (CollisionEvent.otherId ∘ (fun x =>
          (⟨stepIdx, .BEGIN, x, acc.maxf x, acc.counts x⟩ :
            CollisionEvent))) = id := rfl
      rw [hid, List.map_id]
      exact pollBegins_sorted acc st
    · rw [List.map_map]
      have hid : (CollisionEvent.otherId ∘ (fun x =>
          (⟨stepIdx, .END, x, afterBeginsF acc st x, 0⟩ :
            CollisionEvent))) = id := rfl
      rw [hid, List.map_id]
      exact pollEnds_sorted acc st
  · rw [hsnd]
  · intro cl2 hp
    rw [hout, hpoll,
      poll_some_eq norm3 st stepIdx minForce gs ge cl2 fa _ hne rfl,
      ← pollAccum_perm gs ge st.ignoreRanges st.trackedRanges minForce
        norm3 (decide (0 < minForce) && fa) hp,
      ← hacc]
/-- C4 witness: a concrete poll over two tracked ranges and two
contacts emits exactly one BEGIN for entity 7. -/
theorem C4_collision_events_spec_witness :
    (poll_collision_events (fun _ => (0 : ℚ))
        ⟨[(10, 12, 7), (12, 14, 3)], [(0, 2)], ∅, fun _ => none⟩
        5 0 (some (20, 22))
        (some ([⟨20, 11, (0, 0, 0), (0, 0, 0)⟩,
                ⟨13, 20, (0, 0, 0), (0, 0, 0)⟩], true))).1.countP
      (fun e => decide (e.phase = CollisionPhase.BEGIN ∧ e.otherId = 7))
      = 1 := by
  have huF0 : (decide ((0 : ℚ) < 0) && true) = false := by
    rw [decide_eq_false (lt_irrefl (0 : ℚ)), Bool.false_and]
  have h := (C4_collision_events_spec (fun _ => (0 : ℚ))
      ⟨[(10, 12, 7), (12, 14, 3)], [(0, 2)], ∅, fun _ => none⟩
      5 0 20 22
      [⟨20, 11, (0, 0, 0), (0, 0, 0)⟩, ⟨13, 20, (0, 0, 0), (0, 0, 0)⟩]
      true
      (pollAccum 20 22 [(0, 2)] [(10, 12, 7), (12, 14, 3)] 0
        (fun _ => (0 : ℚ)) false
        [⟨20, 11, (0, 0, 0), (0, 0, 0)⟩, ⟨13, 20, (0, 0, 0), (0, 0, 0)⟩])
      _ (List.cons_ne_nil _ _)
      (fun eid hx => absurd hx (Finset.not_mem_empty eid))
      (by rw [huF0]) rfl).1 7
  rw [h, if_pos (by decide)]
/-- C10: when a poll runs with min_force equal to 0, the force data is
never read: the result is unchanged under replacing the force oracle,
the force tensors and the forces-available flag; every BEGIN event
carries max_force none; and because the BEGIN loop stored the default
0.0 for every active id, the stored last known force of every active id
is 0.0 and every END event carries max_force 0.0 rather than none or a
real peak force. -/
theorem C10_min_force_zero_spec (norm3 : ℚ × ℚ × ℚ → ℚ)
    (st : CollState) (stepIdx : ℤ) (gs ge : ℤ) (cl : List Contact)
    (fa : Bool) (out : List CollisionEvent × CollState)
    (hstored : ∀ eid ∈ st.activeIds, st.activeMaxForce eid = some 0)
    (hout : out = poll_collision_events norm3 st stepIdx 0
      (some (gs, ge)) (some (cl, fa))) :
    (∀ (norm3b : ℚ × ℚ × ℚ → ℚ) (cl2 : List Contact) (fa2 : Bool),
        cl2.map stripContact = cl.map stripContact →
        poll_collision_events norm3b st stepIdx 0 (some (gs, ge))
          (some (cl2, fa2)) = out)
    ∧ (∀ e ∈ out.1, e.phase = CollisionPhase.BEGIN → e.maxForce = none)
    ∧ (∀ e ∈ out.1, e.phase = CollisionPhase.END → e.maxForce = some 0)
    ∧ (∀ eid ∈ out.2.activeIds, out.2.activeMaxForce eid = some 0) := by
  have huF : ∀ b : Bool, (decide ((0 : ℚ) < 0) && b) = false := by
    intro b
    rw [decide_eq_false (lt_irrefl (0 : ℚ)), Bool.false_and]
  have hkey : ∀ (n3 n3b : ℚ × ℚ × ℚ → ℚ) (c c2 : Contact),
      stripContact c2 = stripContact c →
      contactKey gs ge st.ignoreRanges st.trackedRanges 0 n3b false c2
        = contactKey gs ge st.ignoreRanges st.trackedRanges 0 n3 false c := by
    intro n3 n3b c c2 hs
    have hA0 := congrArg Contact.geomA hs
    have hB0 := congrArg Contact.geomB hs
    have hA : c2.geomA = c.geomA := hA0
    have hB : c2.geomB = c.geomB := hB0
    simp only [contactKey, hA, hB, Bool.false_eq_true, if_false]
  have haccs : ∀ (n3 n3b : ℚ × ℚ × ℚ → ℚ) (l l2 : List Contact),
      l2.map stripContact = l.map stripContact →
      ∀ acc : PollAcc,
        l2.foldl (pollStep gs ge st.ignoreRanges st.trackedRanges 0
          n3b false) acc
        = l.foldl (pollStep gs ge st.ignoreRanges st.trackedRanges 0
          n3 false) acc := by
    intro n3 n3b l
    induction l with
    | nil =>
      intro l2 hmap acc
      rw [List.map_eq_nil.mp hmap]
      rfl
    | cons c cs ih =>
      intro l2 hmap acc
      rcases l2 with _ | ⟨c2, cs2⟩
      · exact absurd hmap (by simp)
      · simp only [List.map_cons, List.cons.injEq] at hmap
        rw [List.foldl_cons, List.foldl_cons,
          show pollStep gs ge st.ignoreRanges st.trackedRanges 0 n3b
              false acc c2
            = pollStep gs ge st.ignoreRanges st.trackedRanges 0 n3
              false acc c from by
            simp only [pollStep, hkey n3 n3b c c2 hmap.1]]
        exact ih cs2 hmap.2 _
  have haccp : ∀ (n3 n3b : ℚ × ℚ × ℚ → ℚ) (l l2 : List Contact),
      l2.map stripContact = l.map stripContact →
      pollAccum gs ge st.ignoreRanges st.trackedRanges 0 n3b false l2
        = pollAccum gs ge st.ignoreRanges st.trackedRanges 0 n3 false l :=
    fun n3 n3b l l2 h => haccs n3 n3b l l2 h ⟨∅, fun _ => 0, fun _ => none⟩
  subst hout
  by_cases hne : st.trackedRanges = []
  · have hpoll : ∀ (n3 : ℚ × ℚ × ℚ → ℚ) (l : List Contact) (b : Bool),
        poll_collision_events n3 st stepIdx 0 (some (gs, ge))
          (some (l, b)) = ([], st) := by
      intro n3 l b
      unfold poll_collision_events
      rw [if_pos hne]
    rw [hpoll]
    refine ⟨?_, ?_, ?_, ?_⟩
    · intro n3b cl2 fa2 hmap
      rw [hpoll]
    · intro e he
      exact absurd he (List.not_mem_nil e)
    · intro e he
      exact absurd he (List.not_mem_nil e)
    · intro eid hm
      exact hstored eid hm
  · rw [poll_some_eq norm3 st stepIdx 0 gs ge cl fa _ hne rfl, huF fa]
    have hmaxf := pollAccum_maxf_none gs ge st.ignoreRanges
      st.trackedRanges 0 norm3 cl
    refine ⟨?_, ?_, ?_, ?_⟩
    · intro n3b cl2 fa2 hmap
      rw [poll_some_eq n3b st stepIdx 0 gs ge cl2 fa2 _ hne rfl, huF fa2,
        haccp norm3 n3b cl cl2 hmap]
    · intro e he hph
      rcases List.mem_append.mp he with h1 | h2
      · obtain ⟨x, hx, rfl⟩ := List.mem_map.mp h1
        exact congrFun hmaxf x
      · obtain ⟨x, hx, rfl⟩ := List.mem_map.mp h2
        exact CollisionPhase.noConfusion hph
    · intro e he hph
      rcases List.mem_append.mp he with h1 | h2
      · obtain ⟨x, hx, rfl⟩ := List.mem_map.mp h1
        exact CollisionPhase.noConfusion hph
      · obtain ⟨x, hx, rfl⟩ := List.mem_map.mp h2
        have hxe := Finset.mem_sdiff.mp (mem_pollEnds_sub hx)
        have hnb : x ∉ pollBegins (pollAccum gs ge st.ignoreRanges
            st.trackedRanges 0 norm3 false cl) st := by
          intro hc
          exact (Finset.mem_sdiff.mp (mem_pollBegins_sub hc)).2 hxe.1
        show afterBeginsF _ st x = some 0
        simp only [afterBeginsF, if_neg hnb]
        exact hstored x hxe.1
    · intro eid hm
      have hmm : eid ∈ (pollAccum gs ge st.ignoreRanges st.trackedRanges
          0 norm3 false cl).ids := hm
      show finalMaxF _ st eid = some 0
      have hnone : (pollAccum gs ge st.ignoreRanges st.trackedRanges
          0 norm3 false cl).maxf eid = none := congrFun hmaxf eid
      simp only [finalMaxF, hnone]
      have hnotend : eid ∉ pollEnds (pollAccum gs ge st.ignoreRanges
          st.trackedRanges 0 norm3 false cl) st := by
        intro hc
        exact (Finset.mem_sdiff.mp (mem_pollEnds_sub hc)).2 hmm
      simp only [afterEndsF, if_neg hnotend]
      by_cases hb : eid ∈ pollBegins (pollAccum gs ge st.ignoreRanges
          st.trackedRanges 0 norm3 false cl) st
      · simp only [afterBeginsF, if_pos hb, hnone]
        rfl
      · simp only [afterBeginsF, if_neg hb]
        have htr := pollAccum_ids_tracked gs ge st.ignoreRanges
          st.trackedRanges 0 norm3 false cl
        by_cases hact2 : eid ∈ st.activeIds
        · exact hstored eid hact2
        · exact absurd ((mem_pollBegins htr).mpr
            (Finset.mem_sdiff.mpr ⟨hmm, hact2⟩)) hb

/-- C10 witness: a concrete min_force 0 poll that begins tracking
entity 7 stores 0.0 as its last known max force. -/
theorem C10_min_force_zero_spec_witness :
    (poll_collision_events (fun _ => (0 : ℚ))
        ⟨[(10, 12, 7)], [], ∅, fun _ => none⟩ 5 0 (some (20, 22))
        (some ([⟨20, 11, (0, 0, 0), (0, 0, 0)⟩], true))).2.activeMaxForce 7
      = some 0 := by
  have huF0 : (decide ((0 : ℚ) < 0) && true) = false := by
    rw [decide_eq_false (lt_irrefl (0 : ℚ)), Bool.false_and]
  have hmem : (7 : ℕ) ∈ (poll_collision_events (fun _ => (0 : ℚ))
      ⟨[(10, 12, 7)], [], ∅, fun _ => none⟩ 5 0 (some (20, 22))
      (some ([⟨20, 11, (0, 0, 0), (0, 0, 0)⟩], true))).2.activeIds := by
    rw [poll_some_eq (fun _ => (0 : ℚ))
      ⟨[(10, 12, 7)], [], ∅, fun _ => none⟩ 5 0 20 22
      [⟨20, 11, (0, 0, 0), (0, 0, 0)⟩] true _
      (List.cons_ne_nil _ _) rfl, huF0]
    decide
  exact (C10_min_force_zero_spec (fun _ => (0 : ℚ))
    ⟨[(10, 12, 7)], [], ∅, fun _ => none⟩ 5 20 22
    [⟨20, 11, (0, 0, 0), (0, 0, 0)⟩] true _
    (fun eid hx => absurd hx (Finset.not_mem_empty eid))
    rfl).2.2.2 7 hmem
set_option maxHeartbeats 2000000

/-- C1: the spec's decision order is violated in the code:
NPCBlock.policy_step never invokes _avoid_with_rays (the embedded
policy_step has no raycast input at all, because the source body never
casts a ray), so a forward ray hit within the brake distance does not
make policy_step return DECELERATE.  Concretely, with every earlier
rule inapplicable and an oracle reporting a forward hit at distance 1
(within brake distance 1), _avoid_with_rays would decide DECELERATE,
yet policy_step returns ACCELERATE from goal seeking without consulting
any ray. -/
theorem C1_ray_avoidance_not_evaluated :
    (avoid_with_rays demoMathOps demoNpcCfg demoRay (0, 0, 0)
        demoNpcState.yaw demoRng).1 = some DiscreteAction.DECELERATE
    ∧ (policy_step demoMathOps demoNpcCfg none (0, 0) (some [])
        demoNpcState demoRng).1 = DiscreteAction.ACCELERATE := by
  constructor
  · rfl
  · norm_num [policy_step, demoMathOps, demoNpcCfg, demoNpcState,
      demoRng, avoid_with_proximity, avoidProxLoop, wrap_pi]

set_option maxHeartbeats 200000
/-- C5: stuck recovery fires exactly once.  In a tick whose updated
stuck counter reaches the threshold, policy_step performs one recovery
(a fresh astar replan to the existing goal when grid-bound and the
replan succeeds, otherwise an entirely new goal), returns a random left
or right turn regardless of the recovery path, and leaves the counter
at 0, so with stuck_steps at least 2 the next tick cannot fire; in a
tick whose updated counter stays below the threshold, no recovery
happens at all: goal, waypoints and rng are untouched and the counter
just increments. -/
theorem C5_stuck_recovery_once (M : MathOps) (cfg : NPCCfg)
    (grid : Option NavGrid) (px py gx gy pd : ℚ)
    (obstacles : Option (List ProxObstacle)) (s : NPCState) (r : Rng)
    (a : DiscreteAction) (s2 : NPCState) (r2 : Rng)
    (hgoal : s.goal = some (gx, gy))
    (hwp : s.waypoints = [])
    (hgridtol : grid = none →
      ¬(M.hypot (gx - px) (gy - py) ≤ cfg.goalTolerance))
    (hprev : s.prevGoalDist = some pd)
    (hstall : pd - cfg.progressEps ≤ M.hypot (gx - px) (gy - py))
    (hrun : policy_step M cfg grid (px, py) obstacles s r = (a, s2, r2)) :
    (cfg.stuckSteps ≤ s.stuck + 1 →
      (a = DiscreteAction.TURN_LEFT ∨ a = DiscreteAction.TURN_RIGHT)
      ∧ s2.stuck = 0
      ∧ (∀ g, grid = some g →
          (∃ path, astar g (g.worldToCell px py) (g.worldToCell gx gy)
              = some path
            ∧ s2 = {s with
                waypoints :=
                  cells_to_waypoints g (simplify_path_cells path),
                wpIdx := 0, stuck := 0,
                prevGoalDist := some (M.hypot (gx - px) (gy - py))})
          ∨ (astar g (g.worldToCell px py) (g.worldToCell gx gy) = none
            ∧ ∃ rp, (s2, rp) = pick_new_goal M cfg grid (px, py)
                {s with
                  prevGoalDist := some (M.hypot (gx - px) (gy - py)),
                  stuck := s.stuck + 1} r))
      ∧ (grid = none →
          ∃ rp, (s2, rp) = pick_new_goal M cfg grid (px, py)
            {s with
              prevGoalDist := some (M.hypot (gx - px) (gy - py)),
              stuck := s.stuck + 1} r))
    ∧ (s.stuck + 1 < cfg.stuckSteps →
      s2 = {s with
        prevGoalDist := some (M.hypot (gx - px) (gy - py)),
        stuck := s.stuck + 1} ∧ r2 = r) := by
  obtain ⟨syaw, sspeed, sgoal, sprev, sstuck, swps, swpi⟩ := s
  simp only at hgoal hwp hprev
  subst hgoal hwp hprev
  rcases grid with _ | g
  · have hnr : ¬(M.hypot (gx - px) (gy - py) ≤ cfg.goalTolerance) :=
      hgridtol rfl
    simp only [policy_step, Option.isNone_some, Bool.false_eq_true,
      if_false, Option.getD_some, eq_self_iff_true, true_and] at hrun
    rw [if_neg hnr, if_pos hstall] at hrun
    constructor
    · intro hth
      rw [if_pos hth] at hrun
      injection hrun with ha hbc
      injection hbc with hb hc
      subst ha hb hc
      refine ⟨?_, ?_, ?_, ?_⟩
      · split_ifs <;> simp
      · simp [pick_new_goal]
      · intro g hg
        exact Option.noConfusion hg
      · intro _
        exact ⟨(pick_new_goal M cfg none (px, py)
          ⟨syaw, sspeed, some (gx, gy),
            some (M.hypot (gx - px) (gy - py)), sstuck + 1, [], swpi⟩
          r).2, rfl⟩
    · intro hlt
      rw [if_neg (not_le.mpr hlt)] at hrun
      rcases obstacles with _ | obs
      · simp only [] at hrun
        split_ifs at hrun <;>
          (injection hrun with ha hbc; injection hbc with hb hc;
            exact ⟨hb.symm, hc.symm⟩)
      · simp only [] at hrun
        rcases hav : avoid_with_proximity M cfg (px, py) syaw obs
          with _ | a2 <;> rw [hav] at hrun
        · split_ifs at hrun <;>
            (injection hrun with ha hbc; injection hbc with hb hc;
              exact ⟨hb.symm, hc.symm⟩)
        · injection hrun with ha hbc
          injection hbc with hb hc
          exact ⟨hb.symm, hc.symm⟩
  · simp only [policy_step, Option.isNone_some, Bool.false_eq_true,
      if_false, Option.getD_some, if_true, eq_self_iff_true,
      Option.some_ne_none, false_and] at hrun
    rw [if_pos hstall] at hrun
    constructor
    · intro hth
      rw [if_pos hth] at hrun
      rcases hast : astar g (g.worldToCell px py) (g.worldToCell gx gy)
        with _ | path <;> rw [hast] at hrun
      · injection hrun with ha hbc
        injection hbc with hb hc
        subst ha hb hc
        refine ⟨?_, ?_, ?_, ?_⟩
        · split_ifs <;> simp
        · simp [pick_new_goal]
        · intro g2 hg2
          obtain rfl : g = g2 := Option.some.inj hg2
          right
          exact ⟨hast, (pick_new_goal M cfg (some g) (px, py)
            ⟨syaw, sspeed, some (gx, gy),
              some (M.hypot (gx - px) (gy - py)), sstuck + 1, [], swpi⟩
            r).2, rfl⟩
        · intro hn
          exact Option.noConfusion hn
      · injection hrun with ha hbc
        injection hbc with hb hc
        subst ha hb hc
        refine ⟨?_, ?_, ?_, ?_⟩
        · split_ifs <;> simp
        · rfl
        · intro g2 hg2
          obtain rfl : g = g2 := Option.some.inj hg2
          left
          exact ⟨path, hast, rfl⟩
        · intro hn
          exact Option.noConfusion hn
    · intro hlt
      rw [if_neg (not_le.mpr hlt)] at hrun
      rcases obstacles with _ | obs
      · simp only [] at hrun
        split_ifs at hrun <;>
          (injection hrun with ha hbc; injection hbc with hb hc;
            exact ⟨hb.symm, hc.symm⟩)
      · simp only [] at hrun
        rcases hav : avoid_with_proximity M cfg (px, py) syaw obs
          with _ | a2 <;> rw [hav] at hrun
        · split_ifs at hrun <;>
            (injection hrun with ha hbc; injection hbc with hb hc;
              exact ⟨hb.symm, hc.symm⟩)
        · injection hrun with ha hbc
          injection hbc with hb hc
          exact ⟨hb.symm, hc.symm⟩
/-- C5 witness: a gridless NPC stalled for 29 ticks with the counter
reaching 30 on this tick turns randomly and resets the counter. -/
theorem C5_stuck_recovery_once_witness :
    ((policy_step demoMathOps demoNpcCfg none (0, 0) none
        ⟨0, 0, some (10, 0), some 10, 29, [], 0⟩ demoRng).1
          = DiscreteAction.TURN_LEFT
      ∨ (policy_step demoMathOps demoNpcCfg none (0, 0) none
        ⟨0, 0, some (10, 0), some 10, 29, [], 0⟩ demoRng).1
          = DiscreteAction.TURN_RIGHT)
    ∧ (policy_step demoMathOps demoNpcCfg none (0, 0) none
        ⟨0, 0, some (10, 0), some 10, 29, [], 0⟩ demoRng).2.1.stuck
      = 0 := by
  have h := (C5_stuck_recovery_once demoMathOps demoNpcCfg none 0 0 10 0
      10 none ⟨0, 0, some (10, 0), some 10, 29, [], 0⟩ demoRng _ _ _
      rfl rfl (fun _ => by norm_num [demoMathOps, demoNpcCfg])
      rfl (by norm_num [demoMathOps, demoNpcCfg]) rfl).1 (by decide)
  exact ⟨h.1, h.2.1⟩

/-- C8: determinism of the NPC policy: two runs from the same planning
state over the same per-tick position and obstacle snapshots, with rng
streams that agree on every draw, produce the same action sequence.
policy_step, as embedded from the source, is a pure function of its
explicit inputs, the planning state and the rng state, so no hidden
input can break run-to-run reproducibility. -/
theorem C8_policy_determinism (M : MathOps) (cfg : NPCCfg)
    (grid : Option NavGrid)
    (inputs1 inputs2 : List ((ℚ × ℚ) × Option (List ProxObstacle)))
    (s1 s2 : NPCState) (f1 f2 : ℕ → ℚ) (i1 i2 : ℕ)
    (hin : inputs1 = inputs2) (hs : s1 = s2)
    (hseed : ∀ n, f1 n = f2 n) (hi : i1 = i2) :
    (npcRun M cfg grid inputs1 s1 (f1, i1)).1
      = (npcRun M cfg grid inputs2 s2 (f2, i2)).1 := by
  subst hin hs hi
  have hf : f1 = f2 := funext hseed
  subst hf
  rfl

/-- C8 witness: one tick with extensionally equal seed streams given by
syntactically different functions. -/
theorem C8_policy_determinism_witness :
    (npcRun demoMathOps demoNpcCfg none [((0, 0), some [])] demoNpcState
        ((fun _ => 0), 0)).1
      = (npcRun demoMathOps demoNpcCfg none [((0, 0), some [])]
          demoNpcState ((fun n => 0 * (n : ℚ)), 0)).1 :=
  C8_policy_determinism demoMathOps demoNpcCfg none _ _
    demoNpcState demoNpcState (fun _ => 0) (fun n => 0 * (n : ℚ)) 0 0
    rfl rfl (fun n => (zero_mul (n : ℚ)).symm) rfl
end Kiln
